import Mathlib

set_option autoImplicit false

/-!
Verification of the binary-plan analysis core of `tidb-dashboard`
(`pkg/apiserver/utils/binary_plan.go`): the field formatter, the
predicate pattern matcher, the concurrency resolver, the duration
analyzer and the diagnostic rule engine.

The Go code is shallowly embedded: Go strings over the ASCII inputs the
analyzer sees are Lean `String`s, Go `int`/`time.Duration` (both 64-bit)
are `Int` (the concrete values handled here are far from overflow; where
the Go standard library performs an explicit overflow check it is
modelled with an explicit `2^63 - 1` bound), and the floating point
computations of the Go code are modelled by exact rationals (`Frac`
below; every concrete number appearing in the theorems is exactly
representable as a `float64`, so the exact arithmetic and the rounded
`float64` arithmetic agree on them).  The generic
`simplejson` attribute tree is embedded as records whose fields hold the
values returned by the `MustString` / `MustFloat64` / array accessors at
the paths the Go code reads, and the go-simplejson v0.5.0 accessor
semantics (zero value on a type mismatch) are reproduced.

Recursion over plan trees is either structural or expressed with an
explicit fuel parameter (structural on `Nat`, so that all definitions
reduce in the kernel); the top-level entry points supply the node count
`tsize` of the tree as fuel, which always suffices (proved below), and
the theorems quantify over the fuel where they are about all inputs.
-/

/-! ## Models of the Go standard string functions (`strings` package)

All inputs reaching these helpers in the analyzer are ASCII, where Go's
byte-oriented functions and these `Char`-list models coincide. -/

/-- `leadsWith pat s`: `pat` is an initial run of `s` (Go `strings.HasPrefix`). -/
def leadsWith : List Char → List Char → Bool
  | [], _ => true
  | _ :: _, [] => false
  | p :: ps, c :: cs => p == c && leadsWith ps cs

/-- First index at which `pat` occurs in `s`, Go `strings.Index` (`none` for `-1`). -/
def idxOfSub (s pat : List Char) : Option Nat :=
  match s with
  | [] => if pat.isEmpty then some 0 else none
  | _ :: cs =>
    if leadsWith pat s then some 0
    else (idxOfSub cs pat).map (· + 1)

/-- Go `strings.Contains`. -/
def strContains (s pat : String) : Bool :=
  (idxOfSub s.toList pat.toList).isSome

/-- Go `strings.Count` for a non-empty pattern: number of non-overlapping
instances, scanning left to right. -/
def countSubAux : Nat → List Char → List Char → Nat
  | 0, _, _ => 0
  | _ + 1, [], _ => 0
  | fuel + 1, c :: cs, pat =>
    if leadsWith pat (c :: cs) && !pat.isEmpty then
      countSubAux fuel (List.drop (pat.length - 1) cs) pat + 1
    else
      countSubAux fuel cs pat

def countSub (s pat : String) : Nat :=
  countSubAux (s.length + 1) s.toList pat.toList

/-- Go `cut` from the source file (`strings.Cut`): split at the first
occurrence of `sep`; when absent, return `(s, "", false)`. -/
def cut (s sep : String) : String × String × Bool :=
  match idxOfSub s.toList sep.toList with
  | some i =>
    (String.mk (s.toList.take i),
     String.mk (s.toList.drop (i + sep.toList.length)), true)
  | none => (s, "", false)

/-- Go `strings.Split` on a one-character separator (the code only splits on `","` and `"."`). -/
def splitOnCharAux (sep : Char) : List Char → List Char → List String
  | [], acc => [String.mk acc.reverse]
  | c :: cs, acc =>
    if c == sep then String.mk acc.reverse :: splitOnCharAux sep cs []
    else splitOnCharAux sep cs (c :: acc)

def splitOnChar (s : String) (sep : Char) : List String :=
  splitOnCharAux sep s.toList []

/-- Go `strings.HasPrefix`. -/
def goHasPre (s pat : String) : Bool := leadsWith pat.toList s.toList

/-- Go `strings.HasSuffix`. -/
def goHasSuf (s pat : String) : Bool := leadsWith pat.toList.reverse s.toList.reverse

/-- ASCII white space recognised by Go `unicode.IsSpace` (the analyzer's
inputs contain no non-ASCII white space). -/
def isGoSpace (c : Char) : Bool :=
  c == ' ' || c == '\t' || c == '\n' || c == '\x0b' || c == '\x0c' || c == '\r'

/-- Go `strings.TrimSpace` restricted to ASCII input. -/
def trimSpace (s : String) : String :=
  String.mk (((s.toList.dropWhile isGoSpace).reverse.dropWhile isGoSpace).reverse)

/-- Go `strings.TrimRight` with a cutset: drop trailing characters that
are members of `cutset`. -/
def trimRightSet (s cutset : String) : String :=
  String.mk ((s.toList.reverse.dropWhile (cutset.toList.contains ·)).reverse)

/-- Go `strings.TrimLeft` with a cutset. -/
def trimLeftSet (s cutset : String) : String :=
  String.mk (s.toList.dropWhile (cutset.toList.contains ·))

/-- Go `strings.ReplaceAll` (non-overlapping, left to right, non-empty pattern). -/
def repAllAux : Nat → List Char → List Char → List Char → List Char
  | 0, s, _, _ => s
  | _ + 1, [], _, _ => []
  | fuel + 1, c :: cs, pat, new =>
    if leadsWith pat (c :: cs) && !pat.isEmpty then
      new ++ repAllAux fuel (List.drop (pat.length - 1) cs) pat new
    else
      c :: repAllAux fuel cs pat new

def repAll (s pat new : String) : String :=
  String.mk (repAllAux (s.length + 1) s.toList pat.toList new.toList)

/-- Go `strings.ToLower` restricted to ASCII input. -/
def asciiToLower (s : String) : String :=
  String.mk (s.toList.map fun c =>
    if 'A' ≤ c && c ≤ 'Z' then Char.ofNat (c.toNat + 32) else c)

example : countSub "eq(a) and (b)" "(" = 2 := by decide
example : cut "eq(test.t.a, 1)x" "eq(" = ("", "test.t.a, 1)x", true) := by decide
example : splitOnChar "test.t.a, 1" ',' = ["test.t.a", " 1"] := by decide
example : trimRightSet "xnot(" "not(" = "x" := by decide
example : repAll "\x7ba:b\x7d" "\x7b" "\x7b\x22" = "\x7b\x22a:b\x7d" := by decide

/-! ## Models of Go `strconv` and `time` -/

/-- Digits of a decimal string, `none` if any character is not a digit
or the string is empty. -/
def decDigits : List Char → Option Nat
  | [] => none
  | cs =>
    if cs.all (fun c => '0' ≤ c && c ≤ '9') then
      some (cs.foldl (fun a c => a * 10 + (c.toNat - 48)) 0)
    else none

/-- Go `strconv.Atoi` with the error discarded, as every call site in the
source does (`v, _ := strconv.Atoi(s)`): `0` on a syntax error, and the
clamped value `±(2^63-1)` on a range error (Go `ParseInt` returns the
clamped value together with the range error). -/
def atoiDiscard (s : String) : Int :=
  let (neg, ds) : Bool × List Char :=
    match s.toList with
    | '-' :: rest => (true, rest)
    | '+' :: rest => (false, rest)
    | cs => (false, cs)
  match decDigits ds with
  | none => 0
  | some n =>
    if neg then
      if (n : Int) > 2 ^ 63 then -(2 ^ 63 - 1) else -(n : Int)
    else
      if (n : Int) > 2 ^ 63 - 1 then 2 ^ 63 - 1 else (n : Int)

/-- An exact rational with a positive denominator, used to model the Go
`float64` computations of the analyzer.  Every concrete number handled
in the theorems below is exactly representable as a `float64`, and on
such values the (exact) arithmetic here agrees with Go's rounded one.
(`ℚ` itself is avoided only because its normalizing arithmetic does not
reduce inside the kernel.) -/
structure Frac where
  num : Int
  den : Nat
  deriving DecidableEq, Repr

def Frac.ofInt (n : Int) : Frac := ⟨n, 1⟩

def Frac.add (a b : Frac) : Frac := ⟨a.num * b.den + b.num * a.den, a.den * b.den⟩

def Frac.sub (a b : Frac) : Frac := ⟨a.num * b.den - b.num * a.den, a.den * b.den⟩

def Frac.mul (a b : Frac) : Frac := ⟨a.num * b.num, a.den * b.den⟩

/-- Exact division.  Go division by a zero float yields `±Inf`/`NaN`;
the analyzer's code never meaningfully consumes such a value on the
paths proved below, and it is mapped to `0/1` here (each use site is
annotated). -/
def Frac.div (a b : Frac) : Frac :=
  if b.num = 0 then ⟨0, 1⟩
  else if 0 < b.num then ⟨a.num * b.den, a.den * b.num.natAbs⟩
  else ⟨-(a.num * b.den), a.den * b.num.natAbs⟩

/-- `a < b` for fractions with positive denominators. -/
def Frac.blt (a b : Frac) : Bool := a.num * b.den < b.num * a.den

/-- Value equality (the representation is not normalized). -/
def Frac.veq (a b : Frac) : Bool := a.num * b.den = b.num * a.den

/-- Truncation toward zero, the behaviour of Go's float-to-`int64`
conversion for finite values (`Int.tdiv` truncates toward zero). -/
def Frac.trunc (a : Frac) : Int := a.num.tdiv a.den

/-- `int64(float64(t) / float64(k))`: Go float division of two 64-bit
integers followed by truncation toward zero, modelled exactly.  Go
yields `±Inf` for `k = 0` and converting an infinity to `int64` is
architecture-defined; no theorem below evaluates that case, and it is
mapped to `0` here (which is also what `Int.tdiv _ 0` returns). -/
def fdivTrunc (t k : Int) : Int := t.tdiv k

/-- Go `strconv.ParseFloat`, for the plain decimal notation the
analyzer's inputs use: optional sign, decimal digits with an optional
fractional part, optional decimal exponent.  The hexadecimal, `Inf`,
`NaN` and digit-underscore forms accepted by Go do not occur in plan
attribute text and are not modelled. -/
def parseFloatGo (s : String) : Option Frac :=
  let (neg, cs) : Bool × List Char :=
    match s.toList with
    | '-' :: rest => (true, rest)
    | '+' :: rest => (false, rest)
    | cs => (false, cs)
  let intPart := cs.takeWhile (fun c => '0' ≤ c && c ≤ '9')
  let rest := cs.drop intPart.length
  let (fracPart, rest) : List Char × List Char :=
    match rest with
    | '.' :: r => (r.takeWhile (fun c => '0' ≤ c && c ≤ '9'), r.drop ((r.takeWhile (fun c => '0' ≤ c && c ≤ '9')).length))
    | r => ([], r)
  if intPart.isEmpty && fracPart.isEmpty then none
  else
    let iv : Nat := intPart.foldl (fun a c => a * 10 + (c.toNat - 48)) 0
    let fv : Nat := fracPart.foldl (fun a c => a * 10 + (c.toNat - 48)) 0
    let baseNum : Nat := iv * 10 ^ fracPart.length + fv
    let baseDen : Nat := 10 ^ fracPart.length
    let expRes : Option Frac :=
      match rest with
      | [] => some ⟨baseNum, baseDen⟩
      | e :: r =>
        if e == 'e' || e == 'E' then
          let (eneg, ds) : Bool × List Char :=
            match r with
            | '-' :: rr => (true, rr)
            | '+' :: rr => (false, rr)
            | rr => (false, rr)
          match decDigits ds with
          | some n =>
            some (if eneg then ⟨baseNum, baseDen * 10 ^ n⟩ else ⟨baseNum * 10 ^ n, baseDen⟩)
          | none => none
        else none
    match expRes with
    | none => none
    | some v => some (if neg then ⟨-v.num, v.den⟩ else v)

example : atoiDiscard "15" = 15 := by decide
example : atoiDiscard "" = 0 := by decide
example : atoiDiscard "12x" = 0 := by decide
example : parseFloatGo "0" = some ⟨0, 1⟩ := by decide
example : parseFloatGo "" = none := by decide
example : parseFloatGo "x" = none := by decide
example : (parseFloatGo "12.5").map (fun q => Frac.veq q ⟨25, 2⟩) = some true := by decide
example : fdivTrunc 10 3 = 3 := by decide
example : fdivTrunc (-10) 3 = -3 := by decide

def isDigitCh (c : Char) : Bool := '0' ≤ c && c ≤ '9'

/-- Go `time.leadingInt`: greedily consume decimal digits; `none` models
the overflow error (accumulated value above `2^63 - 1`). -/
def leadingIntGo (cs : List Char) : Option (Nat × List Char) :=
  let ds := cs.takeWhile isDigitCh
  let v := ds.foldl (fun a c => a * 10 + (c.toNat - 48)) 0
  if v > 2 ^ 63 - 1 then none else some (v, cs.drop ds.length)

/-- Go `time.leadingFraction`: consume decimal digits, accumulating value
and scale only while the value stays within `int64` range. -/
def leadingFractionGo : List Char → Nat → Nat → Bool → Nat × Nat × List Char
  | [], f, k, _ => (f, k, [])
  | c :: cs, f, k, overflow =>
    if isDigitCh c then
      if overflow then leadingFractionGo cs f k true
      else
        let y := f * 10 + (c.toNat - 48)
        if y > 2 ^ 63 - 1 then leadingFractionGo cs f k true
        else leadingFractionGo cs y (k + 1) false
    else (f, k, c :: cs)

/-- Go `time.unitMap`: nanoseconds per unit. -/
def unitMapGo (u : String) : Option Nat :=
  if u = "ns" then some 1
  else if u = "us" then some 1000
  else if u = "µs" then some 1000
  else if u = "μs" then some 1000
  else if u = "ms" then some 1000000
  else if u = "s" then some 1000000000
  else if u = "m" then some 60000000000
  else if u = "h" then some 3600000000000
  else none

/-- The component loop of Go `time.ParseDuration`.  The fractional
contribution `int64(float64(f) * (float64(unit) / scale))` is modelled
as the exact `f * unit / 10^k` (floor); both are equal whenever the
float computation is exact, which holds for every duration string
evaluated below. -/
def parseDurationLoop : Nat → List Char → Nat → Option Nat
  | 0, _, _ => none
  | _ + 1, [], d => some d
  | fuel + 1, s, d =>
    let c0 := s.headD ' '
    if !(c0 == '.' || isDigitCh c0) then none
    else
      match leadingIntGo s with
      | none => none
      | some (v, s1) =>
        let pre : Bool := s1.length ≠ s.length
        let (f, k, s2, post) : Nat × Nat × List Char × Bool :=
          match s1 with
          | '.' :: r =>
            let (f, k, rem) := leadingFractionGo r 0 0 false
            (f, k, rem, rem.length ≠ r.length)
          | _ => (0, 0, s1, false)
        if !pre && !post then none
        else
          let unitChars := s2.takeWhile (fun c => !(c == '.' || isDigitCh c))
          if unitChars.isEmpty then none
          else
            match unitMapGo (String.mk unitChars) with
            | none => none
            | some u =>
              if v > (2 ^ 63 - 1) / u then none
              else
                let v1 := v * u
                let v2 := v1 + (if f > 0 then f * u / 10 ^ k else 0)
                if f > 0 && v2 > 2 ^ 63 - 1 then none
                else
                  let d1 := d + v2
                  if d1 > 2 ^ 63 - 1 then none
                  else parseDurationLoop fuel (s2.drop unitChars.length) d1

/-- Go `time.ParseDuration`, the nanosecond count as `Int`
(`none` = parse error). -/
def parseDuration (s : String) : Option Int :=
  let cs := s.toList
  let (neg, cs1) : Bool × List Char :=
    match cs with
    | '-' :: rest => (true, rest)
    | '+' :: rest => (false, rest)
    | l => (false, l)
  if cs1 = ['0'] then some 0
  else if cs1.isEmpty then none
  else
    match parseDurationLoop (cs1.length + 1) cs1 0 with
    | none => none
    | some d => some (if neg then -(d : Int) else (d : Int))

/-- Go `time.fmtFrac`: format `prec` low digits of `u` as a fraction,
omitting trailing zeros; returns the remaining high part and the
fraction text (empty or `"." ++ digits`). -/
def fmtFracAux : Nat → Nat → Bool → List Char → Nat × Bool × List Char
  | u, 0, print, acc => (u, print, acc)
  | u, p + 1, print, acc =>
    let digit := u % 10
    let print' := print || digit ≠ 0
    let acc' := if print' then Char.ofNat (48 + digit) :: acc else acc
    fmtFracAux (u / 10) p print' acc'

def fmtFrac (u prec : Nat) : Nat × List Char :=
  let (u', print, acc) := fmtFracAux u prec false []
  (u', if print then '.' :: acc else acc)

/-- Go `time.fmtInt` (decimal digits of `u`, at least `"0"`). -/
def fmtInt (u : Nat) : List Char := (Nat.repr u).toList

/-- Go `time.Duration.String`. -/
def durToString (d : Int) : String :=
  let u : Nat := d.natAbs
  let body : List Char :=
    if u < 1000000000 then
      if u = 0 then "0s".toList
      else if u < 1000 then fmtInt u ++ ['n', 's']
      else if u < 1000000 then
        let (u', frac) := fmtFrac u 3
        fmtInt u' ++ frac ++ ['µ', 's']
      else
        let (u', frac) := fmtFrac u 6
        fmtInt u' ++ frac ++ ['m', 's']
    else
      let (u', frac) := fmtFrac u 9
      let secs := fmtInt (u' % 60) ++ frac ++ ['s']
      let u2 := u' / 60
      if u2 > 0 then
        let mins := fmtInt (u2 % 60) ++ ['m'] ++ secs
        let u3 := u2 / 60
        if u3 > 0 then fmtInt u3 ++ ['h'] ++ mins else mins
      else secs
  if d < 0 && u ≠ 0 then String.mk ('-' :: body) else String.mk body

example : parseDuration "5s" = some 5000000000 := by decide
example : parseDuration "1ms" = some 1000000 := by decide
example : parseDuration "0s" = some 0 := by decide
example : parseDuration "" = none := by decide
example : parseDuration "x" = none := by decide
example : parseDuration "34.8µs" = some 34800 := by decide
example : parseDuration "1m30s" = some 90000000000 := by decide
example : durToString 1000000 = "1ms" := by decide
example : durToString 5000000000 = "5s" := by decide
example : durToString 0 = "0s" := by decide
example : durToString 90000000000 = "1m30s" := by decide
example : durToString 34800 = "34.8µs" := by decide
example : durToString 123456789 = "123.456789ms" := by decide

/-! ## The attribute-value model and the Go JSON decoder

`simplejson.NewJson` decodes with `encoding/json`'s `Decoder` (with
`UseNumber()`), producing strings, `json.Number` literals, maps, slices,
booleans and `nil`.  A failed `formatJSON` conversion additionally
stores a typed-nil `*simplejson.Json` in an array; that value is NOT the
untyped `nil` a JSON `null` decodes to (a Go typed nil compares unequal
to `nil` in an `interface{}`), so it gets its own constructor `nilp`. -/

inductive JVal where
  | str : String → JVal
  | num : String → JVal
  | obj : List (String × JVal) → JVal
  | arr : List JVal → JVal
  | bool : Bool → JVal
  | null : JVal
  | nilp : JVal

def skipWS (cs : List Char) : List Char :=
  cs.dropWhile (fun c => c == ' ' || c == '\t' || c == '\n' || c == '\r')

/-- JSON string body after the opening quote.  Go rejects raw control
characters; the `\uXXXX` escape is decoded without surrogate-pair
combination (no input below contains escapes at all). -/
def jParseStrAux : Nat → List Char → List Char → Option (String × List Char)
  | 0, _, _ => none
  | _ + 1, [], _ => none
  | fuel + 1, c :: cs, acc =>
    if c == '\x22' then some (String.mk acc.reverse, cs)
    else if c == '\\' then
      match cs with
      | '\x22' :: r => jParseStrAux fuel r ('\x22' :: acc)
      | '\\' :: r => jParseStrAux fuel r ('\\' :: acc)
      | '/' :: r => jParseStrAux fuel r ('/' :: acc)
      | 'b' :: r => jParseStrAux fuel r ('\x08' :: acc)
      | 'f' :: r => jParseStrAux fuel r ('\x0c' :: acc)
      | 'n' :: r => jParseStrAux fuel r ('\n' :: acc)
      | 'r' :: r => jParseStrAux fuel r ('\r' :: acc)
      | 't' :: r => jParseStrAux fuel r ('\t' :: acc)
      | 'u' :: h1 :: h2 :: h3 :: h4 :: r =>
        let hv : Char → Option Nat := fun h =>
          if '0' ≤ h && h ≤ '9' then some (h.toNat - 48)
          else if 'a' ≤ h && h ≤ 'f' then some (h.toNat - 87)
          else if 'A' ≤ h && h ≤ 'F' then some (h.toNat - 55)
          else none
        match hv h1, hv h2, hv h3, hv h4 with
        | some a, some b, some c', some d =>
          jParseStrAux fuel r (Char.ofNat (((a * 16 + b) * 16 + c') * 16 + d) :: acc)
        | _, _, _, _ => none
      | _ => none
    else if c.toNat < 32 then none
    else jParseStrAux fuel cs (c :: acc)

/-- JSON number literal (kept as text: the decoder runs with
`UseNumber()`, so numbers stay `json.Number` strings). -/
def jParseNum (cs : List Char) : Option (String × List Char) :=
  let (sign, cs1) : List Char × List Char :=
    match cs with
    | '-' :: r => (['-'], r)
    | r => ([], r)
  let intPart := cs1.takeWhile isDigitCh
  let okInt : Bool :=
    match intPart with
    | [] => false
    | ['0'] => true
    | '0' :: _ => false
    | _ => true
  if !okInt then none
  else
    let r1 := cs1.drop intPart.length
    let (fracPart, r2) : List Char × List Char :=
      match r1 with
      | '.' :: rr =>
        let ds := rr.takeWhile isDigitCh
        if ds.isEmpty then ([], r1) else ('.' :: ds, rr.drop ds.length)
      | _ => ([], r1)
    if r1 ≠ r2 ∧ fracPart = [] then none
    else
      match r2 with
      | e :: rr =>
        if e == 'e' || e == 'E' then
          let (esign, rr1) : List Char × List Char :=
            match rr with
            | '-' :: z => (['-'], z)
            | '+' :: z => (['+'], z)
            | z => ([], z)
          let ds := rr1.takeWhile isDigitCh
          if ds.isEmpty then none
          else some (String.mk (sign ++ intPart ++ fracPart ++ e :: esign ++ ds), rr1.drop ds.length)
        else some (String.mk (sign ++ intPart ++ fracPart), r2)
      | [] => some (String.mk (sign ++ intPart ++ fracPart), r2)

/-- Insert a member into a decoded object: Go decodes into a
`map[string]interface{}`, so a duplicate key overwrites the earlier
value. -/
def objInsert (k : String) (v : JVal) : List (String × JVal) → List (String × JVal)
  | [] => [(k, v)]
  | (k', v') :: rest => if k' = k then (k, v) :: rest else (k', v') :: objInsert k v rest

mutual

/-- One JSON value, Go `encoding/json` grammar (`UseNumber` decoder). -/
def jParseVal : Nat → List Char → Option (JVal × List Char)
  | 0, _ => none
  | fuel + 1, cs =>
    match skipWS cs with
    | [] => none
    | '\x22' :: rest => (jParseStrAux (rest.length + 1) rest []).map (fun (s, r) => (.str s, r))
    | '\x7b' :: rest => jParseObj fuel rest []
    | '[' :: rest => jParseArr fuel rest []
    | 't' :: 'r' :: 'u' :: 'e' :: rest => some (.bool true, rest)
    | 'f' :: 'a' :: 'l' :: 's' :: 'e' :: rest => some (.bool false, rest)
    | 'n' :: 'u' :: 'l' :: 'l' :: rest => some (.null, rest)
    | l => (jParseNum l).map (fun (s, r) => (.num s, r))

/-- Object members after `{` (or after a comma), accumulating into `acc`. -/
def jParseObj : Nat → List Char → List (String × JVal) → Option (JVal × List Char)
  | 0, _, _ => none
  | fuel + 1, cs, acc =>
    match skipWS cs with
    | '\x7d' :: rest => if acc.isEmpty then some (.obj [], rest) else none
    | '\x22' :: rest =>
      match jParseStrAux (rest.length + 1) rest [] with
      | none => none
      | some (k, r1) =>
        match skipWS r1 with
        | ':' :: r2 =>
          match jParseVal fuel r2 with
          | none => none
          | some (v, r3) =>
            let acc' := objInsert k v acc
            match skipWS r3 with
            | ',' :: r4 => jParseObj fuel r4 acc'
            | '\x7d' :: r4 => some (.obj acc', r4)
            | _ => none
        | _ => none
    | _ => none

/-- Array elements after `[` (or after a comma). -/
def jParseArr : Nat → List Char → List JVal → Option (JVal × List Char)
  | 0, _, _ => none
  | fuel + 1, cs, acc =>
    match skipWS cs with
    | ']' :: rest => if acc.isEmpty then some (.arr [], rest) else none
    | l =>
      match jParseVal fuel l with
      | none => none
      | some (v, r1) =>
        match skipWS r1 with
        | ',' :: r2 => jParseArr fuel r2 (acc ++ [v])
        | ']' :: r2 => some (.arr (acc ++ [v]), r2)
        | _ => none

end

/-- `simplejson.NewJson`: decode ONE JSON value with `json.Decoder`
(`UseNumber()`); trailing bytes after the value are ignored by
`Decoder.Decode`. -/
def jsonDecodeGo (s : String) : Option JVal :=
  (jParseVal (s.length + 1) s.toList).map (·.1)

example : jsonDecodeGo "\x7b\x7d" = some (.obj []) := by rfl
example : jsonDecodeGo "\x7b\x22a\x22:\x22b\x22\x7d" = some (.obj [("a", .str "b")]) := by rfl
example : jsonDecodeGo "\x7b\x22a\x22:\x22b\x22:\x22c\x22\x7d" = none := by rfl
example : jsonDecodeGo "" = none := by rfl

/-! ## The Field Formatter (`formatJSON`, `formatNode` in the source) -/

/-- go-simplejson `MustString` (no default argument): the string, or `""`
on any type mismatch. -/
def mustString : JVal → String
  | .str s => s
  | _ => ""

/-- The element loop of go-simplejson `StringArray`: JSON `null` becomes
`""`; any other non-string element aborts with `nil`. -/
def strArrLoop : List JVal → Option (List String)
  | [] => some []
  | .null :: xs => (strArrLoop xs).map ("" :: ·)
  | .str s :: xs => (strArrLoop xs).map (s :: ·)
  | _ => none

/-- go-simplejson `MustStringArray` (no default): `nil` (here `[]`) when
the value is not an array of strings/nulls. -/
def mustStringArray (v : JVal) : List String :=
  match v with
  | .arr xs => (strArrLoop xs).getD []
  | _ => []

/-- `formatJSON` from the source: wrap in braces, apply the eight
`strings.ReplaceAll` substitutions, then decode (`simplejson.NewJson`). -/
def formatJSON (s : String) : Option JVal :=
  let s := "\x7b" ++ s ++ "\x7d"
  let s := repAll s "\x7b" "\x7b\x22"
  let s := repAll s "\x7d" "\x22\x7d"
  let s := repAll s ":" "\x22:\x22"
  let s := repAll s "," "\x22,\x22"
  let s := repAll s "\x22 " "\x22"
  let s := repAll s "\x7d\x22" "\x7d"
  let s := repAll s "\x22\x7b" "\x7b"
  let s := repAll s "\x7b\x22\x22\x7d" "\x7b\x7d"
  jsonDecodeGo s

example : formatJSON "time:1s, loops:2" =
    some (.obj [("time", .str "1s"), ("loops", .str "2")]) := by rfl
example : formatJSON "" = some (.obj []) := by rfl
example : formatJSON "a:b:c" = none := by rfl
example : formatJSON "tikv_task:\x7btime:0s, loops:1\x7d" =
    some (.obj [("tikv_task", .obj [("time", .str "0s"), ("loops", .str "1")])]) := by rfl

/-- A plan node as seen by the formatting pass: the five attribute fields
the Go `formatNode` reads or writes, plus the children array.  All other
attributes are untouched by this pass. -/
structure FNode where
  diskBytes : JVal
  memoryBytes : JVal
  rootGroupExecInfo : JVal
  rootBasicExecInfo : JVal
  copExecInfo : JVal
  children : List FNode

/-- The `rootGroupExecInfo` loop body of `formatNode`: on a conversion
error the code appends the original string AND then (the `append` is not
in an `else` branch) still appends the failed result, a typed-nil
`*simplejson.Json`. -/
def formatGroupList (slist : List String) : List JVal :=
  slist.foldl
    (fun acc s =>
      match formatJSON s with
      | some sJSON => acc ++ [sJSON]
      | none => acc ++ [.str s, .nilp])
    []

/-- The per-node field work of the Go `formatNode` (everything except the
recursion into `children`): the `"-1"` → `"N/A"` sentinel substitution
on `memoryBytes`/`diskBytes` (`needSetNA`), and the `formatJSON`
conversion of the three `needJSONFormat` fields, where a failed
conversion of `rootBasicExecInfo`/`copExecInfo` leaves the field
unchanged (`continue`) while `rootGroupExecInfo` is always overwritten
with the rebuilt array. -/
def formatFields (node : FNode) : FNode :=
  let mem := if mustString node.memoryBytes = "-1" then JVal.str "N/A" else node.memoryBytes
  let disk := if mustString node.diskBytes = "-1" then JVal.str "N/A" else node.diskBytes
  let rg := JVal.arr (formatGroupList (mustStringArray node.rootGroupExecInfo))
  let rb :=
    match formatJSON (mustString node.rootBasicExecInfo) with
    | some sJSON => sJSON
    | none => node.rootBasicExecInfo
  let cop :=
    match formatJSON (mustString node.copExecInfo) with
    | some sJSON => sJSON
    | none => node.copExecInfo
  ⟨disk, mem, rg, rb, cop, node.children⟩

/-- The Go `formatNode` (with `formatChildrenNodes` inlined as the `map`
over `children`).  The Go function's only `error` source is the
recursive call, whose own only source is again the recursive call, so it
never fails and is modelled as total.  `fuel` only drives the recursion;
the wrapper `formatNode` below supplies `sizeOf`, which always
suffices. -/
def formatNodeF : Nat → FNode → FNode
  | 0, node => node
  | fuel + 1, node =>
    let m := formatFields node
    ⟨m.diskBytes, m.memoryBytes, m.rootGroupExecInfo, m.rootBasicExecInfo, m.copExecInfo,
      node.children.map (formatNodeF fuel)⟩

mutual

/-- Number of nodes of a formatter tree (fuel bound for `formatNodeF`). -/
def FNode.tsize : FNode → Nat
  | ⟨_, _, _, _, _, cs⟩ => 1 + FNode.tsizeL cs

def FNode.tsizeL : List FNode → Nat
  | [] => 0
  | c :: cs => FNode.tsize c + FNode.tsizeL cs

end

def formatNode (node : FNode) : FNode := formatNodeF node.tsize node

/-! ## The plan-node model for the analysis passes

A `PlanNode` holds, for each attribute path the Go analyzer reads, the
value the corresponding go-simplejson accessor returns there (so a
missing path is the empty string / zero, exactly as `MustString` /
`MustFloat64` yield).  `actRows` appears twice because the duration pass
reads it with `MustString` and the diagnostic pass with `MustFloat64`;
`copTime`/`copTasks`/`copProcMax`/`copAvg` are the strings at
`copExecInfo.<storeType>_task.{time,tasks,proc max,avg}`. -/

structure RGEntry where
  /-- `GetPath("inner", "concurrency").MustString()` -/
  innerConcurrency : String
  /-- `GetPath("inner", "task").MustString()` -/
  innerTask : String
  /-- `GetPath("Concurrency").MustString()` -/
  concurrencyStr : String
  /-- `GetPath("table_task", "concurrency").MustString()` -/
  tableTaskConcurrency : String
  /-- `GetPath("table_task", "num").MustString()` -/
  tableTaskNum : String
  /-- `Get("ShuffleConcurrency").MustString()` -/
  shuffleConcurrencyStr : String
  /-- `GetPath("cop_task", "distsql_concurrency").MustString()` -/
  copDistsqlConcurrency : String
  /-- `Get("cacheHitRatio").MustString()` -/
  cacheHitRatio : String
  deriving DecidableEq, Repr

structure PlanNode where
  /-- `Get("name").MustString()` -/
  name : String
  /-- `GetPath("rootBasicExecInfo", "time").MustString()` -/
  rootBasicTime : String
  /-- the `rootGroupExecInfo` array -/
  rootGroup : List RGEntry
  /-- `Get("driverSide").MustString()` -/
  driverSide : String
  /-- `Get("actRows").MustString()` -/
  actRows : String
  /-- `Get("actRows").MustFloat64()` -/
  actRowsF : Frac
  /-- `Get("estRows").MustFloat64()` -/
  estRowsF : Frac
  /-- `Get("operatorInfo").MustString()` -/
  operatorInfo : String
  /-- `GetPath("scanObject", "database").MustString()` -/
  scanDatabase : String
  /-- `Get("diskBytes").MustString()` -/
  diskBytes : String
  /-- `Get("storeType").MustString()` -/
  storeType : String
  /-- `Get("taskType").MustString()` -/
  taskType : String
  /-- `GetPath("copExecInfo", storeType ++ "_task", "time").MustString()` -/
  copTime : String
  /-- `GetPath("copExecInfo", storeType ++ "_task", "tasks").MustString()` -/
  copTasks : String
  /-- `GetPath("copExecInfo", storeType ++ "_task", "proc max").MustString()` -/
  copProcMax : String
  /-- `GetPath("copExecInfo", storeType ++ "_task", "avg").MustString()` -/
  copAvg : String
  children : List PlanNode

/-- The closed set of operator kinds (`operator` in the source). -/
inductive operator where
  | Default | IndexJoin | IndexMergeJoin | IndexHashJoin | Apply | Shuffle
  | ShuffleReceiver | IndexLookUpReader | IndexMergeReader | IndexFullScan
  | IndexRangeScan | TableFullScan | TableRangeScan | TableRowIDScan | Selection
  deriving DecidableEq, Repr

open operator

/-- `getOperatorType`: classify by case-sensitive name prefix, in the
order of the Go `switch`. -/
def getOperatorType (node : PlanNode) : operator :=
  let op := node.name
  if goHasPre op "IndexJoin" then IndexJoin
  else if goHasPre op "IndexMergeJoin" then IndexMergeJoin
  else if goHasPre op "IndexHashJoin" then IndexHashJoin
  else if goHasPre op "Apply" then Apply
  else if goHasPre op "Shuffle" && !strContains op "ShuffleReceiver" then Shuffle
  else if goHasPre op "ShuffleReceiver" then ShuffleReceiver
  else if goHasPre op "IndexLookUp" then IndexLookUpReader
  else if goHasPre op "IndexMerge" then IndexMergeReader
  else if goHasPre op "IndexFullScan" then IndexFullScan
  else if goHasPre op "IndexRangeScan" then IndexRangeScan
  else if goHasPre op "TableFullScan" then TableFullScan
  else if goHasPre op "TableRangeScan" then TableRangeScan
  else if goHasPre op "TableRowIDScan" then TableRowIDScan
  else if goHasPre op "Selection" then Selection
  else Default

/-- `concurrency` from the source: the five multipliers. -/
structure concurrency where
  joinConcurrency : Int
  copConcurrency : Int
  tableConcurrency : Int
  applyConcurrency : Int
  shuffleConcurrency : Int
  deriving DecidableEq, Repr

/-- `newConcurrency()`. -/
def newConcurrency : concurrency := ⟨1, 1, 1, 1, 1⟩

/-- One iteration of the `getConcurrency` loop over the
`rootGroupExecInfo` entries: the kind-specific update, then the
`cop_task.distsql_concurrency` update (which, within one entry, sees the
state already modified by the kind-specific part, as in the source).
The `tableTaskNum / joinConcurrency` division is Go integer division
(truncating; Go panics on a zero divisor, which no theorem below
evaluates and which `Int.tdiv` maps to `0`). -/
def concStep (op : operator) (c : concurrency) (e : RGEntry) : concurrency :=
  let c1 :=
    match op with
    | IndexJoin | IndexMergeJoin | IndexHashJoin =>
      let tmpJoin := atoiDiscard e.innerConcurrency
      let joinTaskCount := atoiDiscard e.innerTask
      let tmpJoin := if joinTaskCount < tmpJoin then joinTaskCount else tmpJoin
      if tmpJoin > 0 then { c with joinConcurrency := tmpJoin * c.joinConcurrency } else c
    | Apply =>
      let tmpApply := atoiDiscard e.concurrencyStr
      if tmpApply > 0 then { c with applyConcurrency := tmpApply * c.applyConcurrency } else c
    | IndexLookUpReader | IndexMergeReader =>
      let tmpTable := atoiDiscard e.tableTaskConcurrency
      let tableTaskNum := (atoiDiscard e.tableTaskNum).tdiv c.joinConcurrency
      let tmpTable := if tableTaskNum < tmpTable then tableTaskNum else tmpTable
      if tmpTable > 0 then { c with tableConcurrency := tmpTable * c.copConcurrency } else c
    | Shuffle =>
      let tmpShuffle := atoiDiscard e.shuffleConcurrencyStr
      if tmpShuffle > 0 then { c with shuffleConcurrency := tmpShuffle * c.shuffleConcurrency } else c
    | _ => c
  let tmpCop := atoiDiscard e.copDistsqlConcurrency
  if tmpCop > 0 then { c1 with copConcurrency := tmpCop * c1.copConcurrency } else c1

/-- `getConcurrency`: fold the per-entry step over the node's
`rootGroupExecInfo` entries (the `rootGroupInfoCount > 0` guard in the
source is equivalent to folding over the empty list). -/
def getConcurrency (node : PlanNode) (op : operator) (c : concurrency) : concurrency :=
  node.rootGroup.foldl (concStep op) c

/-- `getOperatorDuratuon` (sic): scale a parsed wall-clock duration down
by `join * table * apply * shuffle`; `"0s"` on a parse error. -/
def getOperatorDuratuon (ts : String) (c : concurrency) : String :=
  match parseDuration ts with
  | none => "0s"
  | some t =>
    durToString (fdivTrunc t
      (c.joinConcurrency * c.tableConcurrency * c.applyConcurrency * c.shuffleConcurrency))

/-- `getCopTaskDuratuon` (sic): derive a duration string from coprocessor
task statistics.  `n` and `avg * n` are Go `float64` computations,
modelled exactly by `Frac` (see the header). -/
def getCopTaskDuratuon (node : PlanNode) (c : concurrency) : String :=
  let ts := node.copTime
  if ts = "" then
    match node.taskType with
    | "cop" =>
      let taskCount := atoiDiscard node.copTasks
      let maxTS := node.copProcMax
      match parseDuration maxTS with
      | none => maxTS
      | some maxDuration =>
        match parseDuration node.copAvg with
        | none => maxTS
        | some avgDuration =>
          let pAll := c.joinConcurrency * c.tableConcurrency * c.applyConcurrency *
            c.shuffleConcurrency * c.copConcurrency
          let n := (Frac.ofInt taskCount).div (Frac.ofInt pAll)
          let tsDuration : Int :=
            if Frac.blt (Frac.ofInt 1) n then ((Frac.ofInt avgDuration).mul n).trunc
            else
              fdivTrunc avgDuration
                (c.joinConcurrency * c.tableConcurrency * c.applyConcurrency * c.shuffleConcurrency)
          if tsDuration > maxDuration then maxTS else durToString tsDuration
    | "batchCop" => node.copProcMax
    | "mpp" => node.copProcMax
    | _ => "0s"
  else ts

/-! ## The Duration Analyzer (`analyzeDuration`, `analyzeDurationNode`,
`analyzeDurationNodes` in the source)

The pass is modelled as a function that returns, besides the reconciled
duration, an output tree recording every write of the `duration` field
(`OutTree.writes`, in write order; the `children` of an output node are
the output trees of the children that the pass actually analyzed, in
analysis order — under an `Apply` parent these are the first
`build`-side child and then the first `probe`-side child, all other
children being skipped by the source), and the trace of every
`concurrency` state passed to a node.  `AErr.parseErr` models the
`strconv.ParseFloat` errors the Apply branch returns; `AErr.indexOOB`
models the Go `index out of range` panic of `durations[0]` on an empty
slice; `AErr.fuelOut` is an artifact of the fuel encoding, never
returned when the fuel is at least the tree size. -/

inductive DurWrite where
  /-- `node.Set(Duration, duration.String())`: the reconciled value,
  formatted by `time.Duration.String`. -/
  | formatted : Int → DurWrite
  /-- `vp.Get(MainTree).Set(Duration, rootTs)`: the raw root time string. -/
  | raw : String → DurWrite
  deriving DecidableEq, Repr

structure OutTree where
  writes : List DurWrite
  children : List OutTree

inductive AErr where
  | parseErr | indexOOB | fuelOut
  deriving DecidableEq, Repr

/-- The per-child concurrency override of the non-`Apply` loop of
`analyzeDurationNodes` (lines 556–593 of the source). -/
def childConcOverride (op : operator) (c : concurrency) (child : PlanNode) : concurrency :=
  match op with
  | IndexJoin | IndexMergeJoin | IndexHashJoin =>
    if child.driverSide = "probe" then c else { c with joinConcurrency := 1 }
  | IndexLookUpReader | IndexMergeReader =>
    if child.driverSide = "probe" then c else { c with tableConcurrency := 1 }
  | ShuffleReceiver => { c with shuffleConcurrency := 1 }
  | _ => c

/-- The non-`Apply` child loop of `analyzeDurationNodes`: analyze every
child (with its override), collecting durations, output trees and the
state trace.  `nodeFn` is the (fuel-instantiated) `analyzeDurationNode`. -/
def analyzeLoopGo
    (nodeFn : PlanNode → concurrency → Except AErr (Int × OutTree × List concurrency)) :
    List PlanNode → operator → concurrency →
    Except AErr (List Int × List OutTree × List concurrency)
  | [], _, _ => .ok ([], [], [])
  | x :: xs, op, c =>
    match nodeFn x (childConcOverride op c x) with
    | .error e => .error e
    | .ok (d, o, t) =>
      match analyzeLoopGo nodeFn xs op c with
      | .error e => .error e
      | .ok (ds, os, ts) => .ok (d :: ds, o :: os, t ++ ts)

/-- The `cacheHitRatio` loop of the Apply build branch (lines 517–527):
entries whose `cacheHitRatio`, with trailing `%` trimmed, are empty are
skipped; a parse failure is returned as an error (aborting the whole
pass); the last parsed value wins. -/
def cacheHitLoop : List RGEntry → Frac → Except AErr Frac
  | [], acc => .ok acc
  | e :: rest, acc =>
    let s := trimRightSet e.cacheHitRatio "%"
    if s = "" then cacheHitLoop rest acc
    else
      match parseFloatGo s with
      | none => .error .parseErr
      | some v => cacheHitLoop rest v

/-- The `Apply` build loop of `analyzeDurationNodes` (lines 504–542):
find the first `build`-side child and analyze it with `applyConcurrency`
forced to `1`. -/
def applyBuildPhase
    (nodeFn : PlanNode → concurrency → Except AErr (Int × OutTree × List concurrency))
    (ns : List PlanNode) (c : concurrency) :
    Except AErr (Option (Int × OutTree × List concurrency × PlanNode)) :=
  match ns.find? (fun n => n.driverSide == "build") with
  | none => .ok none
  | some b =>
    match nodeFn b { c with applyConcurrency := 1 } with
    | .error e => .error e
    | .ok (d, o, t) => .ok (some (d, o, t, b))

/-- After the build loop of the Apply branch: derive the dynamic task
count `int(actRows * (1 - cacheHitRatio/100))` from the build child and
lower `applyConcurrency` to it when smaller (lines 516–541).  No build
child found means no durations and an unchanged state. -/
def applyPostBuild (c : concurrency)
    (bres : Option (Int × OutTree × List concurrency × PlanNode)) :
    Except AErr (List Int × List OutTree × List concurrency × concurrency) :=
  match bres with
  | none => .ok ([], [], [], c)
  | some (d, o, t, b) =>
    match cacheHitLoop b.rootGroup ⟨0, 1⟩ with
    | .error e => .error e
    | .ok chr =>
      match parseFloatGo b.actRows with
      | none => .error .parseErr
      | some ar =>
        let taskCount := (ar.mul ((Frac.ofInt 1).sub (chr.div (Frac.ofInt 100)))).trunc
        let c' :=
          if taskCount < c.applyConcurrency then { c with applyConcurrency := taskCount } else c
        .ok ([d], [o], t, c')

/-- The `Apply` probe loop (lines 544–554): the first `probe`-side child,
analyzed with the (possibly lowered) state. -/
def applyProbePhase
    (nodeFn : PlanNode → concurrency → Except AErr (Int × OutTree × List concurrency))
    (ns : List PlanNode) (c' : concurrency) :
    Except AErr (List Int × List OutTree × List concurrency) :=
  match ns.find? (fun n => n.driverSide == "probe") with
  | none => .ok ([], [], [])
  | some p =>
    match nodeFn p c' with
    | .error e => .error e
    | .ok (d, o, t) => .ok ([d], [o], t)

/-- `sort.Slice(durations, descending); return durations[0]`: the
maximum, or the index-out-of-range panic on an empty slice. -/
def maxOrPanic : List Int → Except AErr Int
  | [] => .error .indexOOB
  | d :: rest => .ok (rest.foldl max d)

/-- `analyzeDurationNodes`: empty child list contributes `0`; the
`Apply` branch runs the build phase, the task-count post-processing and
the probe phase; every other kind analyzes all children via the loop;
the result is the maximum collected duration (`durations[0]` after a
descending sort — a panic when nothing was collected). -/
def analyzeDurationNodesGo
    (nodeFn : PlanNode → concurrency → Except AErr (Int × OutTree × List concurrency))
    (ns : List PlanNode) (op : operator) (c : concurrency) :
    Except AErr (Int × List OutTree × List concurrency) :=
  if ns.length = 0 then .ok (0, [], [])
  else if op = Apply then
    match applyBuildPhase nodeFn ns c with
    | .error e => .error e
    | .ok bres =>
      match applyPostBuild c bres with
      | .error e => .error e
      | .ok (durs1, outs1, tr1, c') =>
        match applyProbePhase nodeFn ns c' with
        | .error e => .error e
        | .ok (durs2, outs2, tr2) =>
          match maxOrPanic (durs1 ++ durs2) with
          | .error e => .error e
          | .ok sub => .ok (sub, outs1 ++ outs2, tr1 ++ tr2)
  else
    match analyzeLoopGo nodeFn ns op c with
    | .error e => .error e
    | .ok (ds, os, ts) =>
      match maxOrPanic ds with
      | .error e => .error e
      | .ok sub => .ok (sub, os, ts)

/-- The node's own attributed duration (lines 461–474): the direct
wall-clock time scaled by `getOperatorDuratuon`, or the coprocessor
statistic via `getCopTaskDuratuon` when the time field is empty; a parse
failure of the resulting string defaults to `0`. -/
def ownDuration (node : PlanNode) (c : concurrency) : Int :=
  let ts0 := node.rootBasicTime
  let ts := if ts0 = "" then getCopTaskDuratuon node c else getOperatorDuratuon ts0 c
  (parseDuration ts).getD 0

/-- `analyzeDurationNode`, fuel-indexed.  The returned trace starts with
the state passed to this node, followed by the children's traces. -/
def analyzeDurationNodeF : Nat → PlanNode → concurrency →
    Except AErr (Int × OutTree × List concurrency)
  | 0, _, _ => .error .fuelOut
  | fuel + 1, node, c =>
    let op := getOperatorType node
    let duration := ownDuration node c
    let c' := getConcurrency node op c
    match analyzeDurationNodesGo (analyzeDurationNodeF fuel) node.children op c' with
    | .error e => .error e
    | .ok (subDuration, outs, tr) =>
      let duration := if duration < subDuration then subDuration else duration
      .ok (duration, ⟨[.formatted duration], outs⟩, c :: tr)

mutual

/-- Number of nodes of a plan tree (fuel bound for `analyzeDurationNodeF`). -/
def PlanNode.tsize : PlanNode → Nat
  | ⟨_, _, _, _, _, _, _, _, _, _, _, _, _, _, _, _, cs⟩ => 1 + PlanNode.tsizeL cs

def PlanNode.tsizeL : List PlanNode → Nat
  | [] => 0
  | c :: cs => PlanNode.tsize c + PlanNode.tsizeL cs

end

def analyzeDurationNode (node : PlanNode) (c : concurrency) :
    Except AErr (Int × OutTree × List concurrency) :=
  analyzeDurationNodeF node.tsize node c

/-- `analyzeDurationNodes` at top level (used for the CTE trees), fuel
per analyzed node. -/
def analyzeDurationNodes (ns : List PlanNode) (op : operator) (c : concurrency) :
    Except AErr (Int × List OutTree × List concurrency) :=
  analyzeDurationNodesGo analyzeDurationNode ns op c

/-- The decoded forest: the `main` tree and the `ctes` array. -/
structure PlanForest where
  main : PlanNode
  ctes : List PlanNode

/-- `analyzeDuration`: analyze the main tree with a fresh state, then
OVERWRITE the main root's `duration` with the raw
`main.rootBasicExecInfo.time` string (line 446 of the source), then
analyze the CTE trees with a fresh state. -/
def analyzeDuration (f : PlanForest) :
    Except AErr (OutTree × List OutTree × List concurrency) :=
  let rootTs := f.main.rootBasicTime
  match analyzeDurationNode f.main newConcurrency with
  | .error e => .error e
  | .ok (_, mainOut, tr1) =>
    let mainOut : OutTree := ⟨mainOut.writes ++ [.raw rootTs], mainOut.children⟩
    match analyzeDurationNodes f.ctes Default newConcurrency with
    | .error e => .error e
    | .ok (_, cteOuts, tr2) => .ok (mainOut, cteOuts, tr1 ++ tr2)

/-! ## The Predicate Pattern Matcher (`useComparisonOperator` in the source) -/

/-- `needCheckOperator` from the source. -/
def needCheckOperator : List String := ["eq", "ge", "gt", "le", "lt", "isnull", "in"]

/-- Insert into the column set (`columnSet[column] = true`): the set is
modelled as a duplicate-free list. -/
def insertCol (cols : List String) (c : String) : List String :=
  if cols.contains c then cols else cols ++ [c]

/-- The inner `for i := 0; i < n; i++` loop of `useComparisonOperator`
for one operator token: repeatedly cut out the first `op(...)` span,
extract its column, and remove the span from the text.  `none` models
the early `return false` exits (nested parenthesis inside the span, an
`in` argument that itself looks like a qualified column, a binary
operator without exactly two arguments, or a comparison of two columns
of the same source). -/
def procOpIter (op : String) : Nat → String → List String → Option (String × List String)
  | 0, operatorInfo, cols => some (operatorInfo, cols)
  | i + 1, operatorInfo, cols =>
    let (s1, sr, _) := cut operatorInfo (op ++ "(")
    let (s, s2, _) := cut sr ")"
    if strContains s "(" then none
    else
      let step : Option (String × String × String) :=
        if op = "isnull" then
          let (s1, s2) :=
            if goHasSuf s1 "not(" && goHasPre s2 ")" then
              (trimRightSet s1 "not(", trimLeftSet s2 ")")
            else (s1, s2)
          some (trimSpace s, s1, s2)
        else if op = "in" then
          let slist := splitOnChar s ','
          let column := trimSpace (slist.headD "")
          if slist.tail.any (fun c =>
              countSub (trimSpace c) "." = 2 && !strContains (trimSpace c) "\x22") then
            none
          else some (column, s1, s2)
        else
          let slist := splitOnChar s ','
          if slist.length ≠ 2 then none
          else
            let c1 := trimSpace (slist.headD "")
            let c2 := trimSpace ((slist.drop 1).headD "")
            let (column, c) :=
              if countSub c1 "." = 2 && !strContains c1 "\x22" then (c1, c2)
              else if countSub c2 "." = 2 && !strContains c2 "\x22" then (c2, c1)
              else ("", "")
            let database := (splitOnChar column '.').headD ""
            if slist.length > 1 && goHasPre c database then none
            else some (column, s1, s2)
      match step with
      | none => none
      | some (column, s1, s2) =>
        let cols := if column ≠ "" then insertCol cols column else cols
        procOpIter op i (s1 ++ s2) cols

/-- The outer loop of `useComparisonOperator` over `needCheckOperator`:
whenever the (current) text contains the token, set the found flag and
run the extraction loop `strings.Count(operatorInfo, op ++ "(")` times.
Returns the flag, the residual text and the collected column set
(`none` = an early `return false`). -/
def procOps : List String → String → Bool → List String → Option (Bool × String × List String)
  | [], operatorInfo, flag, cols => some (flag, operatorInfo, cols)
  | op :: rest, operatorInfo, flag, cols =>
    if strContains operatorInfo op then
      let n := countSub operatorInfo (op ++ "(")
      match procOpIter op n operatorInfo cols with
      | none => none
      | some (operatorInfo', cols') => procOps rest operatorInfo' true cols'
    else procOps rest operatorInfo flag cols

/-- `useComparisonOperator`: the final acceptance gate of the source
(lines 419–429): reject when the residual text has equally many `(` and
`)` with the count positive, reject unless exactly one distinct column
was collected, otherwise return the found flag. -/
def useComparisonOperator (operatorInfo : String) : Bool :=
  match procOps needCheckOperator operatorInfo false [] with
  | none => false
  | some (flag, residual, cols) =>
    if flag then
      if countSub residual "(" = countSub residual ")" && countSub residual "(" > 0 then false
      else if cols.length ≠ 1 then false
      else true
    else flag

example : useComparisonOperator "eq(test.t.a, 1)" = true := by decide
example : useComparisonOperator "eq(minus(test.t1.b, 1), 1)" = false := by decide
example : useComparisonOperator "eq(test.t.a, 1), eq(test.t.a, 2)" = true := by decide
example : useComparisonOperator "eq(test.t.a, 1), eq(test.t.b, 1)" = false := by decide
example : useComparisonOperator "in(test.t.a, 1, 2, 3, 4)" = true := by decide
example : useComparisonOperator "in(test.t.a, 1, 2, 3, 4), in(test.t.b, 1, 2, 3, 4)" = false := by decide
example : useComparisonOperator "not(isnull(test2.t1.a))" = true := by decide
example : useComparisonOperator "eq(test2.t1.a, test2.t2.a)" = false := by decide

/-! ## The Diagnostic Rule Engine (`diagnosticOperator*` in the source) -/

def msgPseudoStats : String :=
  "This operator used pseudo statistics and the estimation might be inaccurate. It might be caused by unavailable or outdated statistics. Consider collecting statistics or setting variable tidb_enable_pseudo_for_outdated_stats to OFF."

def msgDiskSpill : String :=
  "Disk spill is triggered for this operator because the memory quota is exceeded. The execution might be slow. Consider increasing the memory quota if there's enough memory."

def msgEstimation : String :=
  "The estimation error is high. Consider checking the health state of the statistics."

def msgIndexJoinBuild : String :=
  "This index join has a large build side. It might be slow and cause heavy pressure on TiKV. Consider using the optimizer hints to guide the optimizer to choose hash join."

def msgIndexLookup : String :=
  "This IndexLookup read a lot of data from the index side. It might be slow and cause heavy pressure on TiKV. Consider using the optimizer hints to guide the optimizer to choose a better index or not to use index."

def msgSelectionIndex : String :=
  "This Selection filters a high proportion of data. Using an index on this column might achieve better performance. Consider adding an index on this column if there is not one."

def msgTableScanTiFlash : String :=
  "The TiKV read a lot of data. Consider using TiFlash to get better performance if it's necessary to read so much data."

/-- `diagnosticOperation` from the source (field name kept, typo and
all). -/
structure diagnosticOperation where
  needUdateStatistics : Bool
  deriving DecidableEq, Repr

def newDiagnosticOperation : diagnosticOperation := ⟨false⟩

/-- `DiagErr.nilPanic` models the nil-pointer dereference that
`getOperatorType(getBuildChildrenWithDriverSide(node, "build"))`
performs when an `IndexLookUpReader` node has no `build`-side child
(go-simplejson's `Get` on a nil `*Json` panics); `fuelOut` is the fuel
artifact, never returned with fuel ≥ `tsize`. -/
inductive DiagErr where
  | nilPanic | fuelOut
  deriving DecidableEq, Repr

structure DiagOut where
  diagnosis : List String
  children : List DiagOut

/-- `a / b > t` under Go `float64` semantics for `b = 0` (`+Inf > t` for
`a > 0`, `NaN`/`-Inf` comparisons false), exact otherwise; `t > 0` at
every use site. -/
def fdivGt (a b t : Frac) : Bool :=
  if b.num = 0 then 0 < a.num else Frac.blt t (a.div b)

/-- The loop of `diagnosticOperatorNodes`: every child receives the SAME
incoming state; the flag returned is whether any child reported
`needUdateStatistics`. -/
def diagLoopGo
    (nodeFn : PlanNode → diagnosticOperation → Except DiagErr (diagnosticOperation × DiagOut)) :
    List PlanNode → diagnosticOperation → Except DiagErr (Bool × List DiagOut)
  | [], _ => .ok (false, [])
  | x :: xs, diagOp =>
    match nodeFn x diagOp with
    | .error e => .error e
    | .ok (n, o) =>
      match diagLoopGo nodeFn xs diagOp with
      | .error e => .error e
      | .ok (flag, os) => .ok (n.needUdateStatistics || flag, o :: os)

/-- `diagnosticOperatorNodes`: an empty child list sets the
needs-statistics flag (a leaf is always worth a statistics check);
otherwise the flag becomes the OR over the children. -/
def diagnosticOperatorNodesGo
    (nodeFn : PlanNode → diagnosticOperation → Except DiagErr (diagnosticOperation × DiagOut))
    (ns : List PlanNode) (diagOp : diagnosticOperation) :
    Except DiagErr (diagnosticOperation × List DiagOut) :=
  if ns.length = 0 then .ok (⟨true⟩, [])
  else
    match diagLoopGo nodeFn ns diagOp with
    | .error e => .error e
    | .ok (flag, os) => .ok (⟨flag⟩, os)

/-- The unconditional head of a node's diagnosis list: the
pseudo-statistics message (operator info contains `stats:pseudo` and the
scanned database is not a system schema) followed by the disk-spill
message (`diskBytes` not the `"N/A"` sentinel) — lines 200–214. -/
def diagBase (node : PlanNode) : List String :=
  let diagnosis : List String := []
  let diagnosis :=
    if strContains node.operatorInfo "stats:pseudo" then
      let db := asciiToLower node.scanDatabase
      if db = "information_schema" || db = "metrics_schema" || db = "performance_schema" ||
          db = "mysql" then diagnosis
      else diagnosis ++ [msgPseudoStats]
    else diagnosis
  if node.diskBytes ≠ "N/A" then diagnosis ++ [msgDiskSpill] else diagnosis

/-- The estimation-error block (lines 219–235): only when the children
pass reported `needUdateStatistics`; for scan/selection kinds, replace
BOTH row counts by 1 when either is zero, append the message when the
ratio in either direction exceeds 100, and keep the flag; for any other
kind, clear the flag. -/
def estCheck (node : PlanNode) (operator : operator) (diagOp1 : diagnosticOperation)
    (diagnosis : List String) : List String × diagnosticOperation :=
  if diagOp1.needUdateStatistics then
    match operator with
    | IndexFullScan | IndexRangeScan | TableFullScan | TableRangeScan | TableRowIDScan
    | Selection =>
      let actRows := node.actRowsF
      let estRows := node.estRowsF
      let (actRows, estRows) :=
        if actRows.num = 0 || estRows.num = 0 then (Frac.ofInt 1, Frac.ofInt 1)
        else (actRows, estRows)
      let diagnosis :=
        if fdivGt actRows estRows (Frac.ofInt 100) || fdivGt estRows actRows (Frac.ofInt 100)
        then diagnosis ++ [msgEstimation] else diagnosis
      (diagnosis, (⟨true⟩ : diagnosticOperation))
    | _ => (diagnosis, (⟨false⟩ : diagnosticOperation))
  else (diagnosis, diagOp1)

/-- The kind-specific switch (lines 237–302). -/
def diagSwitch (node : PlanNode) (operator : operator) (diagnosis : List String) :
    Except DiagErr (List String) :=
  match operator with
  | IndexJoin | IndexMergeJoin | IndexHashJoin =>
    .ok (if node.rootGroup.any (fun e => atoiDiscard e.innerTask > 10000) then
      diagnosis ++ [msgIndexJoinBuild] else diagnosis)
  | IndexLookUpReader =>
    match node.children.find? (fun n => n.driverSide == "build") with
    | none => .error .nilPanic
    | some cNode =>
      if getOperatorType cNode ≠ Selection then .ok diagnosis
      else
        match cNode.children with
        | [gNode] =>
          if getOperatorType gNode ≠ IndexFullScan then .ok diagnosis
          else if !strContains gNode.operatorInfo "keep order:false" then .ok diagnosis
          else if fdivGt cNode.actRowsF gNode.actRowsF ⟨7, 10⟩ then
            .ok (diagnosis ++ [msgIndexLookup])
          else .ok diagnosis
        | _ => .ok diagnosis
  | Selection =>
    match node.children with
    | [cNode] =>
      if getOperatorType cNode ≠ IndexFullScan then .ok diagnosis
      else if node.storeType ≠ "tikv" then .ok diagnosis
      else if !useComparisonOperator node.operatorInfo then .ok diagnosis
      else if Frac.blt node.actRowsF (Frac.ofInt 10000) &&
          Frac.blt (Frac.ofInt 5000000) cNode.actRowsF then
        .ok (diagnosis ++ [msgSelectionIndex])
      else .ok diagnosis
    | _ => .ok diagnosis
  | TableFullScan =>
    .ok (if node.storeType = "tikv" && Frac.blt (Frac.ofInt 1000000000) node.actRowsF then
      diagnosis ++ [msgTableScanTiFlash] else diagnosis)
  | _ => .ok diagnosis

/-- `diagnosticOperatorNode`, fuel-indexed: in source order — the
unconditional messages, the children recursion, the estimation-error
block, the kind-specific switch. -/
def diagnosticOperatorNodeF : Nat → PlanNode → diagnosticOperation →
    Except DiagErr (diagnosticOperation × DiagOut)
  | 0, _, _ => .error .fuelOut
  | fuel + 1, node, diagOp =>
    match diagnosticOperatorNodesGo (diagnosticOperatorNodeF fuel) node.children diagOp with
    | .error e => .error e
    | .ok (diagOp1, children) =>
      let (diagnosis, diagOp2) := estCheck node (getOperatorType node) diagOp1 (diagBase node)
      match diagSwitch node (getOperatorType node) diagnosis with
      | .error e => .error e
      | .ok diagnosis => .ok (diagOp2, ⟨diagnosis, children⟩)

def diagnosticOperatorNode (node : PlanNode) (diagOp : diagnosticOperation) :
    Except DiagErr (diagnosticOperation × DiagOut) :=
  diagnosticOperatorNodeF node.tsize node diagOp

def diagnosticOperatorNodes (ns : List PlanNode) (diagOp : diagnosticOperation) :
    Except DiagErr (diagnosticOperation × List DiagOut) :=
  diagnosticOperatorNodesGo diagnosticOperatorNode ns diagOp

/-! ## Concrete plan inputs used by the counterexamples and witnesses -/

/-- A node with every attribute absent (each accessor returns its zero
value: empty string, `0`). -/
def blankNode : PlanNode :=
  ⟨"", "", [], "", "", ⟨0, 1⟩, ⟨0, 1⟩, "", "", "", "", "", "", "", "", "", []⟩

/-- A leaf whose wall-clock time is 5s. -/
def leaf5s : PlanNode := { blankNode with name := "Y", rootBasicTime := "5s" }

/-- A root whose own wall-clock time is 1ms, with the 5s leaf below it. -/
def root1ms : PlanNode :=
  { blankNode with name := "X", rootBasicTime := "1ms", children := [leaf5s] }

/-- An `Apply` build-side child with `actRows = "0"` (parses to 0). -/
def buildZero : PlanNode :=
  { blankNode with driverSide := "build", rootBasicTime := "1ms", actRows := "0" }

/-- An `Apply` probe-side child. -/
def probeChild : PlanNode := { blankNode with driverSide := "probe", rootBasicTime := "1ms" }

/-- An `Apply` node whose build side reports zero actual rows. -/
def applyZeroRows : PlanNode :=
  { blankNode with
    name := "Apply_10"
    rootBasicTime := "1ms"
    children := [buildZero, probeChild] }

/-- An `Apply` node whose build side has unparseable `actRows` text. -/
def applyBadRows : PlanNode :=
  { blankNode with
    name := "Apply_10"
    rootBasicTime := "1ms"
    children := [{ buildZero with actRows := "x" }, probeChild] }

/-- An `Apply` node with one child that is neither `build`- nor
`probe`-side. -/
def applyNoSides : PlanNode :=
  { blankNode with
    name := "Apply_11"
    rootBasicTime := "1ms"
    children := [{ blankNode with name := "C" }] }

/-- A leaf scan node with `actRows = 0`, `estRows = 500` (diagnostic
pass). -/
def scanZeroAct : PlanNode :=
  { blankNode with
    name := "TableRangeScan_1"
    diskBytes := "N/A"
    actRowsF := ⟨0, 1⟩
    estRowsF := ⟨500, 1⟩ }

/-- The same scan with `actRows = 101000` (ratio 202 > 100). -/
def scanBigAct : PlanNode := { scanZeroAct with actRowsF := ⟨101000, 1⟩ }

/-- A `rootGroupExecInfo` entry reporting `table_task.concurrency = 3`,
`table_task.num = 5`. -/
def tableEntry : RGEntry := ⟨"", "", "", "3", "5", "", "", ""⟩

/-- A node carrying just that entry. -/
def tableNode : PlanNode := { blankNode with rootGroup := [tableEntry] }

/-- An incoming state whose table multiplier (2) differs from its
coprocessor multiplier (1). -/
def stateTable2 : concurrency := ⟨1, 1, 2, 1, 1⟩

/-- Formatter input: sentinel `-1` byte fields, one grouped summary and
two scalar summaries in the `key:value` micro-format. -/
def fmtNode1 : FNode :=
  ⟨.str "-1", .str "-1", .arr [.str "time:1s"], .str "time:1s", .str "c:d", []⟩

/-- Formatter input whose grouped summary `"a:b:c"` fails conversion
(the substitutions produce `{"a":"b":"c"}`, which is not valid JSON). -/
def fmtNode2 : FNode := ⟨.str "x", .str "x", .arr [.str "a:b:c"], .str "", .str "", []⟩

/-- Formatter input whose scalar summaries fail conversion. -/
def fmtNode3 : FNode := ⟨.str "", .str "", .arr [], .str "a:b:c", .str "a:b:c", []⟩

/-! ## Helper lemmas -/

theorem foldlMaxSelf : ∀ (l : List Int) (d : Int), d ≤ l.foldl max d := by
  intro l
  induction l with
  | nil => intro d; simp
  | cons a l ih =>
    intro d
    calc d ≤ max d a := le_max_left d a
    _ ≤ (a :: l).foldl max d := by simpa using ih (max d a)

theorem foldlMaxMem : ∀ (l : List Int) (d x : Int), x ∈ l → x ≤ l.foldl max d := by
  intro l
  induction l with
  | nil => intro d x hx; simp at hx
  | cons a l ih =>
    intro d x hx
    simp only [List.mem_cons] at hx
    simp only [List.foldl_cons]
    rcases hx with rfl | hx
    · calc x ≤ max d x := le_max_right d x
      _ ≤ l.foldl max (max d x) := foldlMaxSelf l (max d x)
    · exact ih (max d a) x hx

theorem foldlMaxGe : ∀ (l : List Int) (d x : Int), x ∈ d :: l → x ≤ l.foldl max d := by
  intro l d x hx
  rcases List.mem_cons.mp hx with rfl | hx
  · exact foldlMaxSelf l x
  · exact foldlMaxMem l d x hx


/-- Every successful `analyzeDurationNodeF` call writes its node's
duration exactly once, with the value it returns. -/
theorem nodeWritesShape : ∀ (fuel : Nat) (n : PlanNode) (c : concurrency) d out tr,
    analyzeDurationNodeF fuel n c = .ok (d, out, tr) → out.writes = [.formatted d] := by
  intro fuel n c d out tr h
  cases fuel with
  | zero => simp [analyzeDurationNodeF] at h
  | succ k =>
    simp only [analyzeDurationNodeF] at h
    split at h
    · exact absurd h (by simp)
    · rename_i sub outs tr' hv
      simp only [Except.ok.injEq, Prod.mk.injEq] at h
      obtain ⟨hd, hout, -⟩ := h
      subst hout
      simp [hd]

/-- `maxOrPanic` dominates every collected duration. -/
theorem maxOrPanicGe : ∀ (l : List Int) (sub : Int), maxOrPanic l = .ok sub →
    ∀ x ∈ l, x ≤ sub := by
  intro l sub h x hx
  cases l with
  | nil => simp at hx
  | cons d rest =>
    simp only [maxOrPanic, Except.ok.injEq] at h
    subst h
    exact foldlMaxGe rest d x hx

theorem loopGoMem
    (nodeFn : PlanNode → concurrency → Except AErr (Int × OutTree × List concurrency))
    (hfn : ∀ x c d o t, nodeFn x c = .ok (d, o, t) → o.writes = [.formatted d]) :
    ∀ (ns : List PlanNode) (op : operator) (c : concurrency) ds os ts,
      analyzeLoopGo nodeFn ns op c = .ok (ds, os, ts) →
      ∀ o ∈ os, ∃ dd ∈ ds, o.writes = [.formatted dd] := by
  intro ns
  induction ns with
  | nil =>
    intro op c ds os ts h o ho
    simp only [analyzeLoopGo, Except.ok.injEq, Prod.mk.injEq] at h
    obtain ⟨-, h2, -⟩ := h
    subst h2
    simp at ho
  | cons x xs ih =>
    intro op c ds os ts h o ho
    unfold analyzeLoopGo at h
    split at h
    · exact absurd h (by simp)
    · rename_i d1 o1 t1 h1
      split at h
      · exact absurd h (by simp)
      · rename_i ds2 os2 ts2 h2
        simp only [Except.ok.injEq, Prod.mk.injEq] at h
        obtain ⟨hds, hos, -⟩ := h
        subst hds
        subst hos
        rcases List.mem_cons.mp ho with rfl | ho2
        · exact ⟨d1, by simp, hfn x _ _ _ _ h1⟩
        · obtain ⟨dd, hdd, hw⟩ := ih op c ds2 os2 ts2 h2 o ho2
          exact ⟨dd, by simp [hdd], hw⟩

theorem applyBuildShape
    (nodeFn : PlanNode → concurrency → Except AErr (Int × OutTree × List concurrency))
    (hfn : ∀ x c d o t, nodeFn x c = .ok (d, o, t) → o.writes = [.formatted d]) :
    ∀ ns c d o t b, applyBuildPhase nodeFn ns c = .ok (some (d, o, t, b)) →
      o.writes = [.formatted d] := by
  intro ns c d o t b h
  unfold applyBuildPhase at h
  split at h
  · exact absurd h (by simp)
  · rename_i b' hb
    split at h
    · exact absurd h (by simp)
    · rename_i d1 o1 t1 hv
      simp only [Except.ok.injEq, Option.some.injEq, Prod.mk.injEq] at h
      obtain ⟨hd, ho, -, -⟩ := h
      subst hd
      subst ho
      exact hfn b' _ _ _ _ hv

/-- Shape of the post-build phase: the collected build durations/outputs
are empty (no build child) or the singleton from the build analysis. -/
theorem postBuildShape : ∀ c bres durs1 outs1 tr1 c',
    applyPostBuild c bres = .ok (durs1, outs1, tr1, c') →
    (durs1 = [] ∧ outs1 = []) ∨
      ∃ d o t b, bres = some (d, o, t, b) ∧ durs1 = [d] ∧ outs1 = [o] := by
  intro c bres durs1 outs1 tr1 c' h
  rcases bres with _ | ⟨d, o, t, b⟩
  · simp only [applyPostBuild, Except.ok.injEq, Prod.mk.injEq] at h
    obtain ⟨h1, h2, -⟩ := h
    exact Or.inl ⟨h1.symm, h2.symm⟩
  · right
    refine ⟨d, o, t, b, rfl, ?_⟩
    simp only [applyPostBuild] at h
    split at h
    · exact absurd h (by simp)
    · rename_i chr hchr
      split at h
      · exact absurd h (by simp)
      · rename_i ar har
        simp only [Except.ok.injEq, Prod.mk.injEq] at h
        obtain ⟨h1, h2, -⟩ := h
        exact ⟨h1.symm, h2.symm⟩

/-- Shape of the probe phase. -/
theorem probePhaseShape
    (nodeFn : PlanNode → concurrency → Except AErr (Int × OutTree × List concurrency))
    (hfn : ∀ x c d o t, nodeFn x c = .ok (d, o, t) → o.writes = [.formatted d]) :
    ∀ ns c' durs2 outs2 tr2, applyProbePhase nodeFn ns c' = .ok (durs2, outs2, tr2) →
    (durs2 = [] ∧ outs2 = []) ∨
      ∃ d o, durs2 = [d] ∧ outs2 = [o] ∧ o.writes = [.formatted d] := by
  intro ns c' durs2 outs2 tr2 h
  unfold applyProbePhase at h
  split at h
  · simp only [Except.ok.injEq, Prod.mk.injEq] at h
    obtain ⟨h1, h2, -⟩ := h
    exact Or.inl ⟨h1.symm, h2.symm⟩
  · rename_i p hp
    split at h
    · exact absurd h (by simp)
    · rename_i d o t hv
      simp only [Except.ok.injEq, Prod.mk.injEq] at h
      obtain ⟨h1, h2, -⟩ := h
      exact Or.inr ⟨d, o, h1.symm, h2.symm, hfn p _ _ _ _ hv⟩

/-- The value `analyzeDurationNodes` returns dominates the duration
written into every output node it produced. -/
theorem nodesGoLe
    (nodeFn : PlanNode → concurrency → Except AErr (Int × OutTree × List concurrency))
    (hfn : ∀ x c d o t, nodeFn x c = .ok (d, o, t) → o.writes = [.formatted d]) :
    ∀ ns op c sub outs tr, analyzeDurationNodesGo nodeFn ns op c = .ok (sub, outs, tr) →
      ∀ o ∈ outs, ∀ dc, DurWrite.formatted dc ∈ o.writes → dc ≤ sub := by
  intro ns op c sub outs tr h o ho dc hdc
  unfold analyzeDurationNodesGo at h
  split at h
  · simp only [Except.ok.injEq, Prod.mk.injEq] at h
    obtain ⟨-, h2, -⟩ := h
    subst h2
    simp at ho
  · split at h
    · -- Apply branch
      split at h
      · exact absurd h (by simp)
      · rename_i bres hbres
        split at h
        · exact absurd h (by simp)
        · rename_i durs1 outs1 tr1 c' hpost
          split at h
          · exact absurd h (by simp)
          · rename_i durs2 outs2 tr2 hprobe
            split at h
            · exact absurd h (by simp)
            · rename_i sub' hmax
              simp only [Except.ok.injEq, Prod.mk.injEq] at h
              obtain ⟨hs, houts, -⟩ := h
              subst hs
              subst houts
              have hget : ∃ dd ∈ durs1 ++ durs2, o.writes = [.formatted dd] := by
                rcases List.mem_append.mp ho with h1 | h2
                · rcases postBuildShape c bres durs1 outs1 tr1 c' hpost with ⟨-, h2⟩ | hsome
                  · subst h2; simp at h1
                  · obtain ⟨d, o1, t, b, hbe, hd1, ho1⟩ := hsome
                    subst hd1
                    subst ho1
                    simp only [List.mem_singleton] at h1
                    subst h1
                    subst hbe
                    refine ⟨d, by simp, ?_⟩
                    exact applyBuildShape nodeFn hfn _ _ _ _ _ _ hbres
                · rcases probePhaseShape nodeFn hfn ns c' durs2 outs2 tr2 hprobe with
                    ⟨-, h3⟩ | ⟨d, o2, hd2, ho2, hw⟩
                  · subst h3; simp at h2
                  · subst hd2
                    subst ho2
                    simp only [List.mem_singleton] at h2
                    subst h2
                    exact ⟨d, by simp, hw⟩
              obtain ⟨dd, hdd, hw⟩ := hget
              rw [hw] at hdc
              simp only [List.mem_singleton, DurWrite.formatted.injEq] at hdc
              subst hdc
              exact maxOrPanicGe _ _ hmax dc hdd
    · -- uniform branch
      split at h
      · exact absurd h (by simp)
      · rename_i ds os ts hv
        split at h
        · exact absurd h (by simp)
        · rename_i sub' hmax
          simp only [Except.ok.injEq, Prod.mk.injEq] at h
          obtain ⟨hs, houts, -⟩ := h
          subst hs
          subst houts
          obtain ⟨dd, hdd, hw⟩ := loopGoMem nodeFn hfn _ op c ds os ts hv o ho
          rw [hw] at hdc
          simp only [List.mem_singleton, DurWrite.formatted.injEq] at hdc
          subst hdc
          exact maxOrPanicGe _ _ hmax dc hdd

/-! ## Claim C1 — duration reconciliation -/

/-- C1 counterexample: the claim says every analyzed node's FINAL
duration is `max(own, max of children)`, so never below a child's.  But
`analyzeDuration` overwrites the main root's duration with the raw root
time string: on `root1ms` (root time 1ms, child 5s) the root's final
write is the raw `"1ms"` — worth 1000000ns — while its child's duration
is 5000000000ns. -/
theorem C1_counterexample :
    (analyzeDuration ⟨root1ms, []⟩).map
        (fun r => (r.1.writes.getLast?, r.1.children.map OutTree.writes)) =
      .ok (some (.raw "1ms"), [[.formatted 5000000000]]) ∧
    parseDuration "1ms" = some 1000000 ∧ (1000000 : Int) < 5000000000 :=
  ⟨by rfl, by rfl, by decide⟩

/-- C1 amended: within `analyzeDurationNode` the claim holds — the
computed duration is the maximum of the node's own attributed duration
and the children's maximum, and therefore no analyzed child's written
duration exceeds its parent's; only the main tree's root is afterwards
overwritten with the raw root time (see the counterexample). -/
theorem C1_amended : ∀ (fuel : Nat) (n : PlanNode) (c : concurrency) d out tr,
    analyzeDurationNodeF (fuel + 1) n c = .ok (d, out, tr) →
    (∃ sub outs tr2,
      analyzeDurationNodesGo (analyzeDurationNodeF fuel) n.children (getOperatorType n)
          (getConcurrency n (getOperatorType n) c) = .ok (sub, outs, tr2) ∧
      out.children = outs ∧ d = max (ownDuration n c) sub) ∧
    ∀ o ∈ out.children, ∀ dc, DurWrite.formatted dc ∈ o.writes → dc ≤ d := by
  intro fuel n c d out tr h
  simp only [analyzeDurationNodeF] at h
  split at h
  · exact absurd h (by simp)
  · rename_i sub outs tr2 hv
    simp only [Except.ok.injEq, Prod.mk.injEq] at h
    obtain ⟨hd, hout, -⟩ := h
    subst hout
    have hmax : (if ownDuration n c < sub then sub else ownDuration n c) =
        max (ownDuration n c) sub := by
      by_cases hlt : ownDuration n c < sub
      · simp [hlt, max_eq_right hlt.le]
      · simp [hlt, max_eq_left (not_lt.mp hlt)]
    constructor
    · exact ⟨sub, outs, tr2, hv, rfl, by rw [← hd, hmax]⟩
    · intro o ho dc hdc
      have hle : dc ≤ sub :=
        nodesGoLe (analyzeDurationNodeF fuel) (nodeWritesShape fuel) _ _ _ _ _ _ hv o ho dc hdc
      calc dc ≤ sub := hle
      _ ≤ max (ownDuration n c) sub := le_max_right _ _
      _ = d := by rw [← hmax, hd]

/-- C1 witness: the amended theorem applied to the concrete
`root1ms` tree. -/
theorem C1_witness :
    (∃ sub outs tr2,
      analyzeDurationNodesGo (analyzeDurationNodeF 1) root1ms.children (getOperatorType root1ms)
          (getConcurrency root1ms (getOperatorType root1ms) newConcurrency) =
        .ok (sub, outs, tr2) ∧
      (OutTree.mk [.formatted 5000000000] [⟨[.formatted 5000000000], []⟩]).children = outs ∧
      (5000000000 : Int) = max (ownDuration root1ms newConcurrency) sub) ∧
    ∀ o ∈ (OutTree.mk [.formatted 5000000000] [⟨[.formatted 5000000000], []⟩]).children,
      ∀ dc, DurWrite.formatted dc ∈ o.writes → dc ≤ (5000000000 : Int) :=
  C1_amended 1 root1ms newConcurrency 5000000000
    ⟨[.formatted 5000000000], [⟨[.formatted 5000000000], []⟩]⟩
    [newConcurrency, newConcurrency] (by rfl)

/-! ## Claim C9 — the duration field is written exactly once -/

/-- C9 counterexample: the main tree root's duration is written TWICE —
once by `analyzeDurationNode` with the reconciled `"5s"` value and then
again by `analyzeDuration` with the raw root time string `"1ms"` — so it
is neither written exactly once nor left at the reconciled value. -/
theorem C9_counterexample :
    (analyzeDuration ⟨root1ms, []⟩).map (fun r => r.1.writes) =
      .ok [.formatted 5000000000, .raw "1ms"] ∧
    [DurWrite.formatted 5000000000, DurWrite.raw "1ms"].length ≠ 1 :=
  ⟨by rfl, by decide⟩

/-- C9 amended: every node analyzed by `analyzeDurationNode` has its
duration written exactly once, with the reconciled value formatted as a
duration string — EXCEPT the main tree's root, which receives a second
write carrying the raw `rootBasicExecInfo.time` string (and Apply
children without a build/probe tag are skipped entirely and never
written, see C10). -/
theorem C9_amended :
    (∀ fuel n c d out tr, analyzeDurationNodeF fuel n c = .ok (d, out, tr) →
      out.writes = [.formatted d]) ∧
    (∀ f mainOut cteOuts tr, analyzeDuration f = .ok (mainOut, cteOuts, tr) →
      ∃ d, mainOut.writes = [.formatted d, .raw f.main.rootBasicTime]) := by
  constructor
  · exact nodeWritesShape
  · intro f mainOut cteOuts tr h
    simp only [analyzeDuration] at h
    split at h
    · exact absurd h (by simp)
    · rename_i d0 mOut tr1 hv
      split at h
      · exact absurd h (by simp)
      · rename_i z cteOuts2 tr2 hcte
        simp only [Except.ok.injEq, Prod.mk.injEq] at h
        obtain ⟨hmain, -, -⟩ := h
        subst hmain
        refine ⟨d0, ?_⟩
        have hw : mOut.writes = [.formatted d0] :=
          nodeWritesShape _ _ _ _ _ _ hv
      
        simp [hw]

/-- C9 witness: both parts applied to the concrete `root1ms` forest. -/
theorem C9_witness :
    (OutTree.mk [.formatted 5000000000] [⟨[.formatted 5000000000], []⟩]).writes =
      [.formatted 5000000000] ∧
    ∃ d, (OutTree.mk [.formatted 5000000000, .raw "1ms"]
        [⟨[.formatted 5000000000], []⟩]).writes =
      [.formatted d, .raw (PlanForest.mk root1ms []).main.rootBasicTime] :=
  ⟨C9_amended.1 2 root1ms newConcurrency 5000000000
      ⟨[.formatted 5000000000], [⟨[.formatted 5000000000], []⟩]⟩
      [newConcurrency, newConcurrency] (by rfl),
    C9_amended.2 ⟨root1ms, []⟩
      ⟨[.formatted 5000000000, .raw "1ms"], [⟨[.formatted 5000000000], []⟩]⟩ []
      [newConcurrency, newConcurrency] (by rfl)⟩

/-! ## Claim C10 — the `durations[0]` out-of-bounds panic -/

/-- C10: the claim (and spec §5) promise a total bounded computation
with no out-of-bounds access, explicitly including an Apply node none of
whose children is tagged `build`/`probe`.  The code violates this: for
such a node both Apply loops collect nothing and
`sort.Slice(durations, …); durations[0]` panics with index out of
range, modelled by `AErr.indexOOB`.  The spec's totality is clearly the
intent, so this is a code bug. -/
theorem C10_bug :
    getOperatorType applyNoSides = Apply ∧
    applyNoSides.children.length = 1 ∧
    (∀ ch ∈ applyNoSides.children, ch.driverSide ≠ "build" ∧ ch.driverSide ≠ "probe") ∧
    analyzeDurationNode applyNoSides newConcurrency = .error .indexOOB :=
  ⟨by decide, by rfl, by decide, by rfl⟩

/-! ## Claim C8 — error handling in the duration pass -/

/-- C8 counterexample: malformed `actRows` text on the Apply build side
does NOT degrade to a per-node default — it aborts the whole pass with
an error (the claim asserts the pass never returns an error for
malformed numeric text). -/
theorem C8_counterexample :
    parseFloatGo "x" = none ∧
    analyzeDurationNode applyBadRows newConcurrency = .error .parseErr :=
  ⟨by rfl, by rfl⟩

mutual

/-- No node of the tree is classified `Apply`. -/
def noApplyTree : PlanNode → Bool
  | n@⟨_, _, _, _, _, _, _, _, _, _, _, _, _, _, _, _, cs⟩ =>
    !(getOperatorType n == Apply) && noApplyTreeL cs

def noApplyTreeL : List PlanNode → Bool
  | [] => true
  | x :: xs => noApplyTree x && noApplyTreeL xs

end

theorem tsize_pos : ∀ n : PlanNode, 1 ≤ n.tsize := by
  intro n
  cases n
  simp [PlanNode.tsize]

theorem tsize_children : ∀ n : PlanNode, n.tsize = 1 + PlanNode.tsizeL n.children := by
  intro n
  cases n
  rfl

theorem tsizeL_mem : ∀ (l : List PlanNode) (x : PlanNode), x ∈ l →
    PlanNode.tsize x ≤ PlanNode.tsizeL l := by
  intro l
  induction l with
  | nil => intro x hx; simp at hx
  | cons a as ih =>
    intro x hx
    rcases List.mem_cons.mp hx with rfl | hx
    · simp [PlanNode.tsizeL]
    · calc PlanNode.tsize x ≤ PlanNode.tsizeL as := ih x hx
      _ ≤ PlanNode.tsizeL (a :: as) := by simp only [PlanNode.tsizeL]; omega

theorem noApplyTree_op : ∀ n : PlanNode, noApplyTree n = true → getOperatorType n ≠ Apply := by
  intro n h
  cases n
  simp only [noApplyTree, Bool.and_eq_true, Bool.not_eq_true'] at h
  simpa using h.1

theorem noApplyTree_children : ∀ n : PlanNode, noApplyTree n = true →
    ∀ x ∈ n.children, noApplyTree x = true := by
  intro n h x hx
  cases n
  simp only [noApplyTree, Bool.and_eq_true] at h
  simp only at hx
  obtain ⟨-, h2⟩ := h
  induction ‹List PlanNode› with
  | nil => simp at hx
  | cons a as ih =>
    simp only [noApplyTreeL, Bool.and_eq_true] at h2
    rcases List.mem_cons.mp hx with rfl | hx2
    · exact h2.1
    · exact ih hx2 h2.2

/-- On a tree without Apply-classified nodes the duration pass always
succeeds (given fuel at least the node count). -/
theorem analyzeNoApplyOk : ∀ (fuel : Nat) (n : PlanNode) (c : concurrency),
    n.tsize ≤ fuel → noApplyTree n = true →
    ∃ r, analyzeDurationNodeF fuel n c = .ok r := by
  intro fuel
  induction fuel with
  | zero =>
    intro n c hle _
    have := tsize_pos n
    omega
  | succ k ih =>
    intro n c hle hno
    have hop := noApplyTree_op n hno
    have hch := noApplyTree_children n hno
    have hsz : ∀ x ∈ n.children, x.tsize ≤ k := by
      intro x hx
      have h1 := tsizeL_mem n.children x hx
      have h2 := tsize_children n
      omega
    have hloop : ∀ (l : List PlanNode), (∀ x ∈ l, x ∈ n.children) → ∀ op c0,
        ∃ ds os ts, analyzeLoopGo (analyzeDurationNodeF k) l op c0 = .ok (ds, os, ts) ∧
          ds.length = l.length := by
      intro l
      induction l with
      | nil => intro _ op c0; exact ⟨[], [], [], rfl, rfl⟩
      | cons x xs ihl =>
        intro hsub op c0
        obtain ⟨r, hr⟩ := ih x (childConcOverride op c0 x)
          (hsz x (hsub x (by simp))) (hch x (hsub x (by simp)))
        obtain ⟨d, o, t⟩ := r
        obtain ⟨ds, os, ts, hrec, hlen⟩ := ihl (fun y hy => hsub y (by simp [hy])) op c0
        refine ⟨d :: ds, o :: os, t ++ ts, ?_, by simp [hlen]⟩
        unfold analyzeLoopGo
        rw [hr, hrec]
    have hnodes : ∃ sub outs tr,
        analyzeDurationNodesGo (analyzeDurationNodeF k) n.children (getOperatorType n)
          (getConcurrency n (getOperatorType n) c) = .ok (sub, outs, tr) := by
      by_cases hlen : n.children.length = 0
      · refine ⟨0, [], [], ?_⟩
        unfold analyzeDurationNodesGo
        rw [if_pos hlen]
      · obtain ⟨ds, os, ts, hrec, hdslen⟩ :=
          hloop n.children (fun x hx => hx) (getOperatorType n)
            (getConcurrency n (getOperatorType n) c)
        cases ds with
        | nil => simp at hdslen; omega
        | cons d rest =>
          refine ⟨rest.foldl max d, os, ts, ?_⟩
          unfold analyzeDurationNodesGo
          rw [if_neg hlen, if_neg hop, hrec]
          rfl
    obtain ⟨sub, outs, tr, hnodes⟩ := hnodes
    exact ⟨_, by simp only [analyzeDurationNodeF]; rw [hnodes]⟩

/-- A root-group entry whose `cacheHitRatio` text survives the `%` trim
non-empty but does not parse as a float. -/
def badCacheEntry : RGEntry := ⟨"", "", "", "", "", "", "", "abc%"⟩

/-- C8 amended: malformed duration text inside a node degrades to the
`"0s"` default, cache-hit-ratio text that is empty after the `%` trim is
skipped, and on trees without Apply nodes the whole pass never returns
an error — but the Apply build branch is fatal on genuinely malformed
text: non-empty unparseable cache-hit-ratio text (lines 523–526) and
unparseable `actRows` text (lines 529–532) propagate
`strconv.ParseFloat`'s error and abort the pass, contrary to the claim
(see the counterexample). -/
theorem C8_amended :
    (∀ ts c, parseDuration ts = none → getOperatorDuratuon ts c = "0s") ∧
    (∀ (l : List RGEntry) (acc : Frac),
      (∀ e ∈ l, trimRightSet e.cacheHitRatio "%" = "") →
      cacheHitLoop l acc = .ok acc) ∧
    (∀ (e : RGEntry) (rest : List RGEntry) (acc : Frac),
      trimRightSet e.cacheHitRatio "%" ≠ "" →
      parseFloatGo (trimRightSet e.cacheHitRatio "%") = none →
      cacheHitLoop (e :: rest) acc = .error .parseErr) ∧
    (∀ fuel n c, PlanNode.tsize n ≤ fuel → noApplyTree n = true →
      ∃ r, analyzeDurationNodeF fuel n c = .ok r) := by
  refine ⟨?_, ?_, ?_, analyzeNoApplyOk⟩
  · intro ts c h
    unfold getOperatorDuratuon
    rw [h]
  · intro l
    induction l with
    | nil => intro acc _; rfl
    | cons e rest ih =>
      intro acc hall
      have he := hall e (by simp)
      simp only [cacheHitLoop]
      rw [if_pos he]
      exact ih acc (fun x hx => hall x (by simp [hx]))
  · intro e rest acc h1 h2
    simp only [cacheHitLoop]
    rw [if_neg h1, h2]

/-- C8 witness: the four amended parts at concrete inputs — an
unparseable duration text, a root group whose cache-hit text is empty, a
root group whose cache-hit text is malformed, and the Apply-free
`root1ms` tree. -/
theorem C8_witness :
    getOperatorDuratuon "garbage" newConcurrency = "0s" ∧
    cacheHitLoop [tableEntry] ⟨0, 1⟩ = .ok ⟨0, 1⟩ ∧
    cacheHitLoop [badCacheEntry] ⟨0, 1⟩ = .error .parseErr ∧
    ∃ r, analyzeDurationNodeF 2 root1ms newConcurrency = .ok r :=
  ⟨C8_amended.1 "garbage" newConcurrency (by rfl),
    C8_amended.2.1 [tableEntry] ⟨0, 1⟩ (by decide),
    C8_amended.2.2.1 badCacheEntry [] ⟨0, 1⟩ (by decide) (by rfl),
    C8_amended.2.2.2 2 root1ms newConcurrency (by decide) (by rfl)⟩

/-! ## Claim C4 — IndexLookUpReader/IndexMergeReader table concurrency -/

/-- C4 counterexample: with an incoming table multiplier of 2 and
coprocessor multiplier 1, a reported table-task concurrency 3 and task
count 5 yield effective concurrency `min(3, 5 ÷ 1) = 3`; the claim says
the new table multiplier is `3 * 2 = 6`, but the code multiplies by the
COPROCESSOR multiplier (line 701) and produces `3 * 1 = 3`. -/
theorem C4_counterexample :
    (getConcurrency tableNode IndexLookUpReader stateTable2).tableConcurrency = 3 ∧
    min (atoiDiscard tableEntry.tableTaskConcurrency)
        ((atoiDiscard tableEntry.tableTaskNum).tdiv stateTable2.joinConcurrency) = 3 ∧
    (3 : Int) * stateTable2.tableConcurrency = 6 ∧ (3 : Int) ≠ 6 :=
  ⟨by decide, by decide, by decide, by decide⟩

/-- C4 amended: for `IndexLookUpReader`/`IndexMergeReader` entries, when
the effective table concurrency `min(reported concurrency, reported task
count ÷ join concurrency)` is positive, the new table multiplier is that
effective concurrency times the incoming COPROCESSOR multiplier (not
the incoming table multiplier the claim states). -/
theorem C4_amended : ∀ (op : operator) (c : concurrency) (e : RGEntry),
    op = IndexLookUpReader ∨ op = IndexMergeReader →
    0 < min (atoiDiscard e.tableTaskConcurrency)
        ((atoiDiscard e.tableTaskNum).tdiv c.joinConcurrency) →
    (concStep op c e).tableConcurrency =
      min (atoiDiscard e.tableTaskConcurrency)
          ((atoiDiscard e.tableTaskNum).tdiv c.joinConcurrency) * c.copConcurrency := by
  intro op c e hop hpos
  have heq : (if (atoiDiscard e.tableTaskNum).tdiv c.joinConcurrency <
        atoiDiscard e.tableTaskConcurrency then
        (atoiDiscard e.tableTaskNum).tdiv c.joinConcurrency
      else atoiDiscard e.tableTaskConcurrency) =
      min (atoiDiscard e.tableTaskConcurrency)
        ((atoiDiscard e.tableTaskNum).tdiv c.joinConcurrency) := by
    rcases lt_or_ge ((atoiDiscard e.tableTaskNum).tdiv c.joinConcurrency)
        (atoiDiscard e.tableTaskConcurrency) with h | h
    · simp [h, min_eq_right h.le]
    · simp [not_lt.mpr h, min_eq_left h]
  rcases hop with rfl | rfl <;>
  · simp only [concStep]
    rw [heq, if_pos hpos]
    by_cases hcop : atoiDiscard e.copDistsqlConcurrency > 0
    · simp [hcop]
    · simp [hcop]

/-- C4 witness: the amended theorem at the concrete entry. -/
theorem C4_witness :
    (concStep IndexLookUpReader stateTable2 tableEntry).tableConcurrency =
      min (atoiDiscard tableEntry.tableTaskConcurrency)
          ((atoiDiscard tableEntry.tableTaskNum).tdiv stateTable2.joinConcurrency) *
        stateTable2.copConcurrency :=
  C4_amended IndexLookUpReader stateTable2 tableEntry (Or.inl rfl) (by decide)

/-! ## Claim C5 — the predicate matcher's acceptance condition -/

/-- C5 counterexample: on `"eq(test.t.a, 1))"` the residual text after
extraction is `")"`, which contains an UNMATCHED parenthesis — the claim
says the matcher must reject — yet the code accepts (its check fires
only when the residual's `(` and `)` counts are EQUAL and positive). -/
theorem C5_counterexample :
    useComparisonOperator "eq(test.t.a, 1))" = true ∧
    procOps needCheckOperator "eq(test.t.a, 1))" false [] = some (true, ")", ["test.t.a"]) ∧
    countSub ")" "(" ≠ countSub ")" ")" :=
  ⟨by decide, by decide, by decide⟩

/-- C5 amended: after processing, the matcher rejects exactly when the
residual text contains equally many (and at least one) `(` and `)` —
balanced, not unmatched, leftovers — and otherwise accepts iff some
operator token was found and exactly one distinct column was
collected. -/
theorem C5_amended :
    (∀ info, procOps needCheckOperator info false [] = none →
      useComparisonOperator info = false) ∧
    (∀ info flag residual cols,
      procOps needCheckOperator info false [] = some (flag, residual, cols) →
      (useComparisonOperator info = true ↔
        flag = true ∧
        ¬(countSub residual "(" = countSub residual ")" ∧ 0 < countSub residual "(") ∧
        cols.length = 1)) := by
  constructor
  · intro info h
    unfold useComparisonOperator
    rw [h]
  · intro info flag residual cols h
    unfold useComparisonOperator
    rw [h]
    cases flag with
    | false => simp
    | true =>
      simp only [if_true]
      split
      · rename_i hcond
        simp only [Bool.and_eq_true, decide_eq_true_eq] at hcond
        exact iff_of_false (by simp) (fun hr => hr.2.1 hcond)
      · rename_i hcond
        simp only [Bool.and_eq_true, decide_eq_true_eq] at hcond
        by_cases hlen : cols.length = 1
        · rw [if_neg (by simp [hlen])]
          exact iff_of_true rfl ⟨trivial, hcond, hlen⟩
        · rw [if_pos hlen]
          exact iff_of_false (by simp) (fun hr => hlen hr.2.2)

/-- C5 witness: the amended theorem at two concrete predicate texts. -/
theorem C5_witness :
    useComparisonOperator "eq(minus(test.t1.b, 1), 1)" = false ∧
    (useComparisonOperator "eq(test.t.a, 1)" = true ↔
      true = true ∧
      ¬(countSub "" "(" = countSub "" ")" ∧ 0 < countSub "" "(") ∧
      (["test.t.a"] : List String).length = 1) :=
  ⟨C5_amended.1 "eq(minus(test.t1.b, 1), 1)" (by decide),
    C5_amended.2 "eq(test.t.a, 1)" true "" ["test.t.a"] (by decide)⟩

/-! ## Formatter lemmas (for C6 and C7) -/

theorem FNode.ftsize_pos : ∀ n : FNode, 1 ≤ n.tsize := by
  intro n
  cases n
  simp [FNode.tsize]

theorem FNode.ftsize_children : ∀ n : FNode, n.tsize = 1 + FNode.tsizeL n.children := by
  intro n
  cases n
  rfl

theorem FNode.ftsizeL_mem : ∀ (l : List FNode) (x : FNode), x ∈ l →
    FNode.tsize x ≤ FNode.tsizeL l := by
  intro l
  induction l with
  | nil => intro x hx; simp at hx
  | cons a as ih =>
    intro x hx
    rcases List.mem_cons.mp hx with rfl | hx
    · simp [FNode.tsizeL]
    · calc FNode.tsize x ≤ FNode.tsizeL as := ih x hx
      _ ≤ FNode.tsizeL (a :: as) := by simp only [FNode.tsizeL]; omega

/-- `formatNodeF` is fuel-insensitive once the fuel covers the tree. -/
theorem formatNodeF_fuelIrrel : ∀ (f1 : Nat), ∀ (f2 : Nat) (n : FNode),
    n.tsize ≤ f1 → n.tsize ≤ f2 → formatNodeF f1 n = formatNodeF f2 n := by
  intro f1
  induction f1 with
  | zero =>
    intro f2 n h1 _
    have := FNode.ftsize_pos n
    omega
  | succ k ih =>
    intro f2 n h1 h2
    cases f2 with
    | zero =>
      have := FNode.ftsize_pos n
      omega
    | succ k2 =>
      simp only [formatNodeF]
      have hch : ∀ x ∈ n.children, formatNodeF k x = formatNodeF k2 x := by
        intro x hx
        have hm := FNode.ftsizeL_mem n.children x hx
        have hc := FNode.ftsize_children n
        exact ih k2 x (by omega) (by omega)
      simp [List.map_congr_left hch]

/-- `formatNode` unfolded one level: field work, then the children each
formatted (with sufficient fuel). -/
theorem formatNode_unfold : ∀ n : FNode,
    formatNode n = ⟨(formatFields n).diskBytes, (formatFields n).memoryBytes,
      (formatFields n).rootGroupExecInfo, (formatFields n).rootBasicExecInfo,
      (formatFields n).copExecInfo, n.children.map formatNode⟩ := by
  intro n
  have hpos := FNode.ftsize_pos n
  have hc := FNode.ftsize_children n
  unfold formatNode
  obtain ⟨k, hk⟩ : ∃ k, n.tsize = k + 1 := ⟨n.tsize - 1, by omega⟩
  rw [hk]
  simp only [formatNodeF]
  have hch : ∀ x ∈ n.children, formatNodeF k x = formatNodeF x.tsize x := by
    intro x hx
    have hm := FNode.ftsizeL_mem n.children x hx
    exact formatNodeF_fuelIrrel k x.tsize x (by omega) (by omega)
  rw [List.map_congr_left hch]

theorem formatNode_diskBytes : ∀ n : FNode,
    (formatNode n).diskBytes = if mustString n.diskBytes = "-1" then JVal.str "N/A"
      else n.diskBytes := by
  intro n
  rw [formatNode_unfold]
  rfl

theorem formatNode_memoryBytes : ∀ n : FNode,
    (formatNode n).memoryBytes = if mustString n.memoryBytes = "-1" then JVal.str "N/A"
      else n.memoryBytes := by
  intro n
  rw [formatNode_unfold]
  rfl

theorem formatNode_rootBasic : ∀ n : FNode,
    (formatNode n).rootBasicExecInfo =
      match formatJSON (mustString n.rootBasicExecInfo) with
      | some sJSON => sJSON
      | none => n.rootBasicExecInfo := by
  intro n
  rw [formatNode_unfold]
  simp only [formatFields]

theorem formatNode_cop : ∀ n : FNode,
    (formatNode n).copExecInfo =
      match formatJSON (mustString n.copExecInfo) with
      | some sJSON => sJSON
      | none => n.copExecInfo := by
  intro n
  rw [formatNode_unfold]
  simp only [formatFields]

theorem formatNode_rootGroup : ∀ n : FNode,
    (formatNode n).rootGroupExecInfo =
      JVal.arr (formatGroupList (mustStringArray n.rootGroupExecInfo)) := by
  intro n
  rw [formatNode_unfold]
  rfl

theorem formatNode_children : ∀ n : FNode,
    (formatNode n).children = n.children.map formatNode := by
  intro n
  rw [formatNode_unfold]

/-- `formatGroupList` as a per-entry expansion. -/
theorem formatGroupList_eq : ∀ (slist : List String),
    formatGroupList slist = slist.flatMap (fun s =>
      match formatJSON s with
      | some sJSON => [sJSON]
      | none => [.str s, .nilp]) := by
  have haux : ∀ (slist : List String) (acc : List JVal),
      slist.foldl (fun acc s =>
        match formatJSON s with
        | some sJSON => acc ++ [sJSON]
        | none => acc ++ [.str s, .nilp]) acc =
      acc ++ slist.flatMap (fun s =>
        match formatJSON s with
        | some sJSON => [sJSON]
        | none => [.str s, .nilp]) := by
    intro slist
    induction slist with
    | nil => intro acc; simp
    | cons s rest ih =>
      intro acc
      rcases h : formatJSON s with - | j
      · simp [h, ih, List.append_assoc]
      · simp [h, ih, List.append_assoc]
  intro slist
  unfold formatGroupList
  rw [haux]
  simp

/-! ## Claim C7 — retention on conversion failure -/

/-- C7 counterexample: the grouped-info entry `"a:b:c"` fails conversion;
the code keeps the original string but ALSO appends the failed result (a
typed-nil `*simplejson.Json`), so one input entry becomes two output
entries — the claim's "entry count is preserved" is false. -/
theorem C7_counterexample :
    formatJSON "a:b:c" = none ∧
    (formatNode fmtNode2).rootGroupExecInfo = .arr [.str "a:b:c", .nilp] ∧
    mustStringArray fmtNode2.rootGroupExecInfo = ["a:b:c"] ∧
    ([JVal.str "a:b:c", JVal.nilp] : List JVal).length ≠
      (["a:b:c"] : List String).length :=
  ⟨by rfl, by rfl, by rfl, by decide⟩

/-- C7 amended: on a failed grouped-info entry the original string IS
retained, but a null entry is appended besides, so the output count is
the input count plus the number of failures; a failed scalar summary
(`rootBasicExecInfo`/`copExecInfo`) is left unchanged; and the children
are formatted independently of any conversion failure in this node. -/
theorem C7_amended :
    (∀ slist : List String, (formatGroupList slist).length =
      slist.length + (slist.filter (fun s => (formatJSON s).isNone)).length) ∧
    (∀ (slist : List String), ∀ s ∈ slist, formatJSON s = none →
      JVal.str s ∈ formatGroupList slist ∧ JVal.nilp ∈ formatGroupList slist) ∧
    (∀ n : FNode, formatJSON (mustString n.rootBasicExecInfo) = none →
      (formatNode n).rootBasicExecInfo = n.rootBasicExecInfo) ∧
    (∀ n : FNode, formatJSON (mustString n.copExecInfo) = none →
      (formatNode n).copExecInfo = n.copExecInfo) ∧
    (∀ n : FNode, (formatNode n).children = n.children.map formatNode) := by
  refine ⟨?_, ?_, ?_, ?_, formatNode_children⟩
  · intro slist
    induction slist with
    | nil => rfl
    | cons s rest ih =>
      rw [formatGroupList_eq] at ih ⊢
      rcases h : formatJSON s with - | j
      · simp [h, ih]
        omega
      · simp [h, ih]
        omega
  · intro slist s hs hfail
    rw [formatGroupList_eq]
    constructor
    · exact List.mem_flatMap.mpr ⟨s, hs, by rw [hfail]; simp⟩
    · exact List.mem_flatMap.mpr ⟨s, hs, by rw [hfail]; simp⟩
  · intro n h
    rw [formatNode_rootBasic, h]
  · intro n h
    rw [formatNode_cop, h]

/-- C7 witness: the amended parts at concrete inputs. -/
theorem C7_witness :
    ((formatGroupList ["a:b:c"]).length =
      (["a:b:c"] : List String).length +
        ((["a:b:c"] : List String).filter (fun s => (formatJSON s).isNone)).length) ∧
    (JVal.str "a:b:c" ∈ formatGroupList ["a:b:c"] ∧
      JVal.nilp ∈ formatGroupList ["a:b:c"]) ∧
    (formatNode fmtNode3).rootBasicExecInfo = fmtNode3.rootBasicExecInfo :=
  ⟨C7_amended.1 ["a:b:c"],
    C7_amended.2.1 ["a:b:c"] "a:b:c" (by simp) (by rfl),
    C7_amended.2.2.1 fmtNode3 (by rfl)⟩

/-! ## Claim C6 — the formatting pass is NOT idempotent -/

/-- Whether go-simplejson `StringArray` accepts the element (a string,
or a JSON null). -/
def isStrOrNull : JVal → Bool
  | .str _ => true
  | .null => true
  | _ => false

theorem strArrLoop_none : ∀ l : List JVal, (∃ v ∈ l, isStrOrNull v = false) →
    strArrLoop l = none := by
  intro l
  induction l with
  | nil => rintro ⟨v, hv, -⟩; simp at hv
  | cons a rest ih =>
    rintro ⟨v, hv, hbad⟩
    rcases List.mem_cons.mp hv with rfl | hv2
    · cases v <;> simp_all [strArrLoop, isStrOrNull]
    · cases a <;> simp [strArrLoop, isStrOrNull, ih ⟨v, hv2, hbad⟩]

theorem sentinelIdem : ∀ v : JVal,
    (if mustString (if mustString v = "-1" then JVal.str "N/A" else v) = "-1"
      then JVal.str "N/A" else (if mustString v = "-1" then JVal.str "N/A" else v)) =
    (if mustString v = "-1" then JVal.str "N/A" else v) := by
  intro v
  by_cases h : mustString v = "-1"
  · rw [if_pos h]
    rw [show mustString (JVal.str "N/A") = "N/A" from rfl]
    rw [if_neg (by decide)]
  · rw [if_neg h, if_neg h]

/-- C6 counterexample: applying `formatNode` twice is NOT the identity on
an already-formatted tree — the second application wipes the converted
`rootBasicExecInfo`/`copExecInfo` objects to `{}` and the converted
`rootGroupExecInfo` array to `[]`. -/
theorem C6_counterexample :
    formatNode (formatNode fmtNode1) ≠ formatNode fmtNode1 ∧
    formatNode fmtNode1 =
      ⟨.str "N/A", .str "N/A", .arr [.obj [("time", .str "1s")]],
        .obj [("time", .str "1s")], .obj [("c", .str "d")], []⟩ ∧
    formatNode (formatNode fmtNode1) =
      ⟨.str "N/A", .str "N/A", .arr [], .obj [], .obj [], []⟩ := by
  refine ⟨?_, by rfl, by rfl⟩
  intro h
  have h2 := congrArg FNode.rootBasicExecInfo h
  rw [show (formatNode (formatNode fmtNode1)).rootBasicExecInfo = JVal.obj [] from rfl,
    show (formatNode fmtNode1).rootBasicExecInfo = JVal.obj [("time", JVal.str "1s")] from
      rfl] at h2
  exact absurd h2 (by simp)

/-- C6 amended: only the `"-1"` → `"N/A"` sentinel substitution is
idempotent.  The JSON-ification is destructive on a second application:
a converted scalar summary object becomes the empty object (its
`MustString` is `""`, which converts to `{}`), and a converted grouped
array containing any non-string element becomes the empty array (its
`MustStringArray` is `nil`). -/
theorem C6_amended :
    (∀ n : FNode, (formatNode (formatNode n)).diskBytes = (formatNode n).diskBytes ∧
      (formatNode (formatNode n)).memoryBytes = (formatNode n).memoryBytes) ∧
    (∀ (n : FNode) (o : List (String × JVal)),
      (formatNode n).rootBasicExecInfo = JVal.obj o →
      (formatNode (formatNode n)).rootBasicExecInfo = JVal.obj []) ∧
    (∀ (n : FNode) (o : List (String × JVal)),
      (formatNode n).copExecInfo = JVal.obj o →
      (formatNode (formatNode n)).copExecInfo = JVal.obj []) ∧
    (∀ (n : FNode) (l : List JVal),
      (formatNode n).rootGroupExecInfo = JVal.arr l →
      (∃ v ∈ l, isStrOrNull v = false) →
      (formatNode (formatNode n)).rootGroupExecInfo = JVal.arr []) := by
  refine ⟨?_, ?_, ?_, ?_⟩
  · intro n
    constructor
    · rw [formatNode_diskBytes (formatNode n), formatNode_diskBytes n]
      exact sentinelIdem n.diskBytes
    · rw [formatNode_memoryBytes (formatNode n), formatNode_memoryBytes n]
      exact sentinelIdem n.memoryBytes
  · intro n o h
    rw [formatNode_rootBasic (formatNode n), h]
    rw [show mustString (JVal.obj o) = "" from rfl,
      show formatJSON "" = some (.obj []) from rfl]
  · intro n o h
    rw [formatNode_cop (formatNode n), h]
    rw [show mustString (JVal.obj o) = "" from rfl,
      show formatJSON "" = some (.obj []) from rfl]
  · intro n l h hbad
    rw [formatNode_rootGroup (formatNode n), h]
    have : mustStringArray (JVal.arr l) = [] := by
      simp [mustStringArray, strArrLoop_none l hbad]
    rw [this]
    rfl

/-- C6 witness: the amended parts at the concrete `fmtNode1`. -/
theorem C6_witness :
    ((formatNode (formatNode fmtNode1)).diskBytes = (formatNode fmtNode1).diskBytes ∧
      (formatNode (formatNode fmtNode1)).memoryBytes = (formatNode fmtNode1).memoryBytes) ∧
    (formatNode (formatNode fmtNode1)).rootBasicExecInfo = JVal.obj [] ∧
    (formatNode (formatNode fmtNode1)).rootGroupExecInfo = JVal.arr [] :=
  ⟨C6_amended.1 fmtNode1,
    C6_amended.2.1 fmtNode1 [("time", .str "1s")] (by rfl),
    C6_amended.2.2.2 fmtNode1 [.obj [("time", .str "1s")]] (by rfl)
      ⟨.obj [("time", .str "1s")], by simp, by rfl⟩⟩

/-! ## Claim C3 — the estimation-error rule -/

/-- The condition under which the code appends the estimation-error
message: when EITHER row count is zero BOTH are replaced by 1, then the
ratio must exceed 100 in one direction. -/
def estCond (act est : Frac) : Bool :=
  let p := if act.num = 0 || est.num = 0 then (Frac.ofInt 1, Frac.ofInt 1) else (act, est)
  fdivGt p.1 p.2 (Frac.ofInt 100) || fdivGt p.2 p.1 (Frac.ofInt 100)

theorem msgEstimation_not_base : ∀ node : PlanNode, msgEstimation ∉ diagBase node := by
  have h1 : msgEstimation ≠ msgPseudoStats := by decide
  have h2 : msgEstimation ≠ msgDiskSpill := by decide
  intro node hmem
  simp only [diagBase] at hmem
  split at hmem <;> split at hmem <;> simp_all

theorem estCheck_scan : ∀ (node : PlanNode) (op : operator) (d1 : diagnosticOperation)
    (base : List String),
    (op = IndexFullScan ∨ op = IndexRangeScan ∨ op = TableFullScan ∨ op = TableRangeScan ∨
      op = TableRowIDScan ∨ op = Selection) →
    d1.needUdateStatistics = true →
    estCheck node op d1 base =
      ((if estCond node.actRowsF node.estRowsF then base ++ [msgEstimation] else base),
        ⟨true⟩) := by
  intro node op d1 base hop hflag
  rcases hop with rfl | rfl | rfl | rfl | rfl | rfl <;>
    simp only [estCheck, estCond, hflag, if_true]

theorem diagSwitch_est : ∀ (node : PlanNode) (op : operator) (d d2 : List String),
    diagSwitch node op d = .ok d2 → (msgEstimation ∈ d2 ↔ msgEstimation ∈ d) := by
  have h1 : msgEstimation ≠ msgIndexJoinBuild := by decide
  have h2 : msgEstimation ≠ msgIndexLookup := by decide
  have h3 : msgEstimation ≠ msgSelectionIndex := by decide
  have h4 : msgEstimation ≠ msgTableScanTiFlash := by decide
  intro node op d d2 h
  cases op with
  | IndexJoin =>
    simp only [diagSwitch, Except.ok.injEq] at h
    subst h
    split
    · simp [List.mem_append, h1]
    · rfl
  | IndexMergeJoin =>
    simp only [diagSwitch, Except.ok.injEq] at h
    subst h
    split
    · simp [List.mem_append, h1]
    · rfl
  | IndexHashJoin =>
    simp only [diagSwitch, Except.ok.injEq] at h
    subst h
    split
    · simp [List.mem_append, h1]
    · rfl
  | IndexLookUpReader =>
    simp only [diagSwitch] at h
    split at h
    · exact absurd h (by simp)
    · rename_i cNode hfind
      split at h
      · simp only [Except.ok.injEq] at h
        subst h
        rfl
      · split at h
        · rename_i gNode
          split at h
          · simp only [Except.ok.injEq] at h
            subst h
            rfl
          · split at h
            · simp only [Except.ok.injEq] at h
              subst h
              rfl
            · split at h
              · simp only [Except.ok.injEq] at h
                subst h
                simp [List.mem_append, h2]
              · simp only [Except.ok.injEq] at h
                subst h
                rfl
        · simp only [Except.ok.injEq] at h
          subst h
          rfl
  | Selection =>
    simp only [diagSwitch] at h
    split at h
    · rename_i cNode
      split at h
      · simp only [Except.ok.injEq] at h
        subst h
        rfl
      · split at h
        · simp only [Except.ok.injEq] at h
          subst h
          rfl
        · split at h
          · simp only [Except.ok.injEq] at h
            subst h
            rfl
          · split at h
            · simp only [Except.ok.injEq] at h
              subst h
              simp [List.mem_append, h3]
            · simp only [Except.ok.injEq] at h
              subst h
              rfl
    · simp only [Except.ok.injEq] at h
      subst h
      rfl
  | TableFullScan =>
    simp only [diagSwitch, Except.ok.injEq] at h
    subst h
    split
    · simp [List.mem_append, h4]
    · rfl
  | Default =>
    simp only [diagSwitch, Except.ok.injEq] at h
    subst h
    rfl
  | Apply =>
    simp only [diagSwitch, Except.ok.injEq] at h
    subst h
    rfl
  | Shuffle =>
    simp only [diagSwitch, Except.ok.injEq] at h
    subst h
    rfl
  | ShuffleReceiver =>
    simp only [diagSwitch, Except.ok.injEq] at h
    subst h
    rfl
  | IndexMergeReader =>
    simp only [diagSwitch, Except.ok.injEq] at h
    subst h
    rfl
  | IndexFullScan =>
    simp only [diagSwitch, Except.ok.injEq] at h
    subst h
    rfl
  | IndexRangeScan =>
    simp only [diagSwitch, Except.ok.injEq] at h
    subst h
    rfl
  | TableRangeScan =>
    simp only [diagSwitch, Except.ok.injEq] at h
    subst h
    rfl
  | TableRowIDScan =>
    simp only [diagSwitch, Except.ok.injEq] at h
    subst h
    rfl

/-- C3 counterexample: a leaf scan with actual rows 0 and estimated rows
500.  The claim says a zero value is treated as 1 individually, giving
ratio 500 > 100 and a warning; the code replaces BOTH values by 1 when
either is zero, so no warning is appended — the diagnosis list stays
empty. -/
theorem C3_counterexample :
    diagnosticOperatorNode scanZeroAct newDiagnosticOperation = .ok (⟨true⟩, ⟨[], []⟩) ∧
    scanZeroAct.actRowsF = ⟨0, 1⟩ ∧ scanZeroAct.estRowsF = ⟨500, 1⟩ ∧
    Frac.blt (Frac.ofInt 100) ((Frac.ofInt 500).div (Frac.ofInt 1)) = true ∧
    msgEstimation ∉ ([] : List String) :=
  ⟨by rfl, by rfl, by rfl, by decide, by simp⟩

/-- C3 amended: for a scan/selection node whose children left the
needs-statistics flag set, the estimation-error message is appended iff,
after replacing BOTH row counts by 1 whenever either is zero, the two
counts differ by more than a factor of 100 in either direction. -/
theorem C3_amended : ∀ (fuel : Nat) (node : PlanNode) (diagOp : diagnosticOperation)
    (dres : diagnosticOperation) (out : DiagOut),
    diagnosticOperatorNodeF (fuel + 1) node diagOp = .ok (dres, out) →
    (getOperatorType node = IndexFullScan ∨ getOperatorType node = IndexRangeScan ∨
      getOperatorType node = TableFullScan ∨ getOperatorType node = TableRangeScan ∨
      getOperatorType node = TableRowIDScan ∨ getOperatorType node = Selection) →
    ∀ (dflag : diagnosticOperation) (childOuts : List DiagOut),
      diagnosticOperatorNodesGo (diagnosticOperatorNodeF fuel) node.children diagOp =
        .ok (dflag, childOuts) →
      dflag.needUdateStatistics = true →
      (msgEstimation ∈ out.diagnosis ↔ estCond node.actRowsF node.estRowsF = true) := by
  intro fuel node diagOp dres out h hop dflag childOuts hch hflag
  simp only [diagnosticOperatorNodeF, hch] at h
  rw [estCheck_scan node (getOperatorType node) dflag (diagBase node) hop hflag] at h
  dsimp only at h
  rcases hsw : diagSwitch node (getOperatorType node)
      (if estCond node.actRowsF node.estRowsF then diagBase node ++ [msgEstimation]
        else diagBase node) with e | d2
  · rw [hsw] at h
    exact absurd h (by simp)
  · rw [hsw] at h
    simp only [Except.ok.injEq, Prod.mk.injEq] at h
    obtain ⟨-, hout⟩ := h
    subst hout
    rw [show (DiagOut.mk d2 childOuts).diagnosis = d2 from rfl]
    rw [diagSwitch_est node (getOperatorType node) _ d2 hsw]
    rcases hcond : estCond node.actRowsF node.estRowsF with - | -
    · simp [msgEstimation_not_base node]
    · simp

/-- C3 witness: the amended theorem at a concrete scan with ratio
202 > 100 (message appended). -/
theorem C3_witness :
    msgEstimation ∈ (DiagOut.mk [msgEstimation] []).diagnosis ↔
      estCond scanBigAct.actRowsF scanBigAct.estRowsF = true :=
  C3_amended 0 scanBigAct newDiagnosticOperation ⟨true⟩ ⟨[msgEstimation], []⟩ (by rfl)
    (by decide) ⟨true⟩ [] (by rfl) rfl

/-! ## Claim C2 — concurrency multipliers along the pass -/

/-- The four multipliers that stay at least 1 throughout (the claim's
fifth, `applyConcurrency`, does not — see the counterexample). -/
def Pos4 (c : concurrency) : Prop :=
  1 ≤ c.joinConcurrency ∧ 1 ≤ c.copConcurrency ∧ 1 ≤ c.tableConcurrency ∧
    1 ≤ c.shuffleConcurrency

theorem one_le_mul_int : ∀ a b : Int, 0 < a → 1 ≤ b → 1 ≤ a * b := by
  intro a b ha hb
  nlinarith

theorem concStep_pos4 : ∀ (op : operator) (c : concurrency) (e : RGEntry),
    Pos4 c → Pos4 (concStep op c e) := by
  intro op c e hc
  obtain ⟨hj, hcop, ht, hs⟩ := hc
  have key : ∀ c1 : concurrency, Pos4 c1 →
      Pos4 (if atoiDiscard e.copDistsqlConcurrency > 0 then
        { c1 with copConcurrency := atoiDiscard e.copDistsqlConcurrency * c1.copConcurrency }
        else c1) := by
    intro c1 h1
    obtain ⟨a, b, cc, dd⟩ := h1
    by_cases hpos : atoiDiscard e.copDistsqlConcurrency > 0
    · rw [if_pos hpos]
      exact ⟨a, one_le_mul_int _ _ hpos b, cc, dd⟩
    · rw [if_neg hpos]
      exact ⟨a, b, cc, dd⟩
  simp only [concStep]
  cases op
  case Default => exact key _ ⟨hj, hcop, ht, hs⟩
  case Apply =>
    apply key
    by_cases hpos : atoiDiscard e.concurrencyStr > 0
    · rw [if_pos hpos]
      exact ⟨hj, hcop, ht, hs⟩
    · rw [if_neg hpos]
      exact ⟨hj, hcop, ht, hs⟩
  case IndexJoin =>
    apply key
    by_cases hpos : (if atoiDiscard e.innerTask < atoiDiscard e.innerConcurrency then
        atoiDiscard e.innerTask else atoiDiscard e.innerConcurrency) > 0
    · rw [if_pos hpos]
      exact ⟨one_le_mul_int _ _ hpos hj, hcop, ht, hs⟩
    · rw [if_neg hpos]
      exact ⟨hj, hcop, ht, hs⟩
  case IndexMergeJoin =>
    apply key
    by_cases hpos : (if atoiDiscard e.innerTask < atoiDiscard e.innerConcurrency then
        atoiDiscard e.innerTask else atoiDiscard e.innerConcurrency) > 0
    · rw [if_pos hpos]
      exact ⟨one_le_mul_int _ _ hpos hj, hcop, ht, hs⟩
    · rw [if_neg hpos]
      exact ⟨hj, hcop, ht, hs⟩
  case IndexHashJoin =>
    apply key
    by_cases hpos : (if atoiDiscard e.innerTask < atoiDiscard e.innerConcurrency then
        atoiDiscard e.innerTask else atoiDiscard e.innerConcurrency) > 0
    · rw [if_pos hpos]
      exact ⟨one_le_mul_int _ _ hpos hj, hcop, ht, hs⟩
    · rw [if_neg hpos]
      exact ⟨hj, hcop, ht, hs⟩
  case IndexLookUpReader =>
    apply key
    by_cases hpos : (if (atoiDiscard e.tableTaskNum).tdiv c.joinConcurrency <
        atoiDiscard e.tableTaskConcurrency then
        (atoiDiscard e.tableTaskNum).tdiv c.joinConcurrency
      else atoiDiscard e.tableTaskConcurrency) > 0
    · rw [if_pos hpos]
      exact ⟨hj, hcop, one_le_mul_int _ _ hpos hcop, hs⟩
    · rw [if_neg hpos]
      exact ⟨hj, hcop, ht, hs⟩
  case IndexMergeReader =>
    apply key
    by_cases hpos : (if (atoiDiscard e.tableTaskNum).tdiv c.joinConcurrency <
        atoiDiscard e.tableTaskConcurrency then
        (atoiDiscard e.tableTaskNum).tdiv c.joinConcurrency
      else atoiDiscard e.tableTaskConcurrency) > 0
    · rw [if_pos hpos]
      exact ⟨hj, hcop, one_le_mul_int _ _ hpos hcop, hs⟩
    · rw [if_neg hpos]
      exact ⟨hj, hcop, ht, hs⟩
  case Shuffle =>
    apply key
    by_cases hpos : atoiDiscard e.shuffleConcurrencyStr > 0
    · rw [if_pos hpos]
      exact ⟨hj, hcop, ht, one_le_mul_int _ _ hpos hs⟩
    · rw [if_neg hpos]
      exact ⟨hj, hcop, ht, hs⟩
  case ShuffleReceiver => exact key _ ⟨hj, hcop, ht, hs⟩
  case IndexFullScan => exact key _ ⟨hj, hcop, ht, hs⟩
  case IndexRangeScan => exact key _ ⟨hj, hcop, ht, hs⟩
  case TableFullScan => exact key _ ⟨hj, hcop, ht, hs⟩
  case TableRangeScan => exact key _ ⟨hj, hcop, ht, hs⟩
  case TableRowIDScan => exact key _ ⟨hj, hcop, ht, hs⟩
  case Selection => exact key _ ⟨hj, hcop, ht, hs⟩

theorem getConcurrency_pos4 : ∀ (n : PlanNode) (op : operator) (c : concurrency),
    Pos4 c → Pos4 (getConcurrency n op c) := by
  intro n op c hc
  unfold getConcurrency
  generalize n.rootGroup = l
  induction l generalizing c with
  | nil => exact hc
  | cons e rest ih => exact ih (concStep op c e) (concStep_pos4 op c e hc)

theorem childConcOverride_pos4 : ∀ (op : operator) (c : concurrency) (x : PlanNode),
    Pos4 c → Pos4 (childConcOverride op c x) := by
  intro op c x hc
  obtain ⟨hj, hcop, ht, hs⟩ := hc
  cases op <;> simp only [childConcOverride]
  case IndexJoin | IndexMergeJoin | IndexHashJoin =>
    split
    · exact ⟨hj, hcop, ht, hs⟩
    · exact ⟨le_refl 1, hcop, ht, hs⟩
  case IndexLookUpReader | IndexMergeReader =>
    split
    · exact ⟨hj, hcop, ht, hs⟩
    · exact ⟨hj, hcop, le_refl 1, hs⟩
  case ShuffleReceiver => exact ⟨hj, hcop, ht, le_refl 1⟩
  all_goals exact ⟨hj, hcop, ht, hs⟩

theorem loopGo_pos4
    (nodeFn : PlanNode → concurrency → Except AErr (Int × OutTree × List concurrency))
    (hfn : ∀ x c0 res, Pos4 c0 → nodeFn x c0 = .ok res → ∀ s ∈ res.2.2, Pos4 s) :
    ∀ (ns : List PlanNode) (op : operator) (c : concurrency) ds os ts, Pos4 c →
      analyzeLoopGo nodeFn ns op c = .ok (ds, os, ts) → ∀ s ∈ ts, Pos4 s := by
  intro ns
  induction ns with
  | nil =>
    intro op c ds os ts hc h s hs
    simp only [analyzeLoopGo, Except.ok.injEq, Prod.mk.injEq] at h
    obtain ⟨-, -, h3⟩ := h
    subst h3
    simp at hs
  | cons x xs ih =>
    intro op c ds os ts hc h s hs
    unfold analyzeLoopGo at h
    split at h
    · exact absurd h (by simp)
    · rename_i d1 o1 t1 h1
      split at h
      · exact absurd h (by simp)
      · rename_i ds2 os2 ts2 h2
        simp only [Except.ok.injEq, Prod.mk.injEq] at h
        obtain ⟨-, -, h3⟩ := h
        subst h3
        rcases List.mem_append.mp hs with hmem | hmem
        · exact hfn x (childConcOverride op c x) (d1, o1, t1)
            (childConcOverride_pos4 op c x hc) h1 s hmem
        · exact ih op c ds2 os2 ts2 hc h2 s hmem

theorem buildPhase_pos4
    (nodeFn : PlanNode → concurrency → Except AErr (Int × OutTree × List concurrency))
    (hfn : ∀ x c0 res, Pos4 c0 → nodeFn x c0 = .ok res → ∀ s ∈ res.2.2, Pos4 s) :
    ∀ (ns : List PlanNode) (c : concurrency) d o t b, Pos4 c →
      applyBuildPhase nodeFn ns c = .ok (some (d, o, t, b)) → ∀ s ∈ t, Pos4 s := by
  intro ns c d o t b hc h s hs
  unfold applyBuildPhase at h
  split at h
  · exact absurd h (by simp)
  · rename_i b' hb
    split at h
    · exact absurd h (by simp)
    · rename_i d1 o1 t1 hv
      simp only [Except.ok.injEq, Option.some.injEq, Prod.mk.injEq] at h
      obtain ⟨-, -, h3, -⟩ := h
      subst h3
      have hc1 : Pos4 { c with applyConcurrency := 1 } := hc
      exact hfn b' _ (d1, o1, t1) hc1 hv s hs

theorem postBuild_pos4 : ∀ (c : concurrency) bres durs1 outs1 tr1 c', Pos4 c →
    applyPostBuild c bres = .ok (durs1, outs1, tr1, c') → Pos4 c' := by
  intro c bres durs1 outs1 tr1 c' hc h
  rcases bres with - | ⟨d, o, t, b⟩
  · simp only [applyPostBuild, Except.ok.injEq, Prod.mk.injEq] at h
    obtain ⟨-, -, -, h4⟩ := h
    subst h4
    exact hc
  · simp only [applyPostBuild] at h
    split at h
    · exact absurd h (by simp)
    · split at h
      · exact absurd h (by simp)
      · rename_i ar har
        simp only [Except.ok.injEq, Prod.mk.injEq] at h
        obtain ⟨-, -, -, h4⟩ := h
        subst h4
        split
        · exact hc
        · exact hc

theorem postBuild_trace : ∀ (c : concurrency) bres durs1 outs1 tr1 c',
    applyPostBuild c bres = .ok (durs1, outs1, tr1, c') →
    tr1 = [] ∨ ∃ d o t b, bres = some (d, o, t, b) ∧ tr1 = t := by
  intro c bres durs1 outs1 tr1 c' h
  rcases bres with - | ⟨d, o, t, b⟩
  · simp only [applyPostBuild, Except.ok.injEq, Prod.mk.injEq] at h
    obtain ⟨-, -, h3, -⟩ := h
    exact Or.inl h3.symm
  · simp only [applyPostBuild] at h
    split at h
    · exact absurd h (by simp)
    · split at h
      · exact absurd h (by simp)
      · rename_i ar har
        simp only [Except.ok.injEq, Prod.mk.injEq] at h
        obtain ⟨-, -, h3, -⟩ := h
        exact Or.inr ⟨d, o, t, b, rfl, h3.symm⟩

theorem probePhase_pos4
    (nodeFn : PlanNode → concurrency → Except AErr (Int × OutTree × List concurrency))
    (hfn : ∀ x c0 res, Pos4 c0 → nodeFn x c0 = .ok res → ∀ s ∈ res.2.2, Pos4 s) :
    ∀ (ns : List PlanNode) (c' : concurrency) durs2 outs2 tr2, Pos4 c' →
      applyProbePhase nodeFn ns c' = .ok (durs2, outs2, tr2) → ∀ s ∈ tr2, Pos4 s := by
  intro ns c' durs2 outs2 tr2 hc h s hs
  unfold applyProbePhase at h
  split at h
  · simp only [Except.ok.injEq, Prod.mk.injEq] at h
    obtain ⟨-, -, h3⟩ := h
    subst h3
    simp at hs
  · rename_i p hp
    split at h
    · exact absurd h (by simp)
    · rename_i d o t hv
      simp only [Except.ok.injEq, Prod.mk.injEq] at h
      obtain ⟨-, -, h3⟩ := h
      subst h3
      exact hfn p c' (d, o, t) hc hv s hs

theorem nodesGo_pos4
    (nodeFn : PlanNode → concurrency → Except AErr (Int × OutTree × List concurrency))
    (hfn : ∀ x c0 res, Pos4 c0 → nodeFn x c0 = .ok res → ∀ s ∈ res.2.2, Pos4 s) :
    ∀ (ns : List PlanNode) (op : operator) (c : concurrency) sub outs tr, Pos4 c →
      analyzeDurationNodesGo nodeFn ns op c = .ok (sub, outs, tr) → ∀ s ∈ tr, Pos4 s := by
  intro ns op c sub outs tr hc h s hs
  unfold analyzeDurationNodesGo at h
  split at h
  · simp only [Except.ok.injEq, Prod.mk.injEq] at h
    obtain ⟨-, -, h3⟩ := h
    subst h3
    simp at hs
  · split at h
    · split at h
      · exact absurd h (by simp)
      · rename_i bres hbres
        split at h
        · exact absurd h (by simp)
        · rename_i durs1 outs1 tr1 c' hpost
          split at h
          · exact absurd h (by simp)
          · rename_i durs2 outs2 tr2 hprobe
            split at h
            · exact absurd h (by simp)
            · rename_i sub' hmax
              simp only [Except.ok.injEq, Prod.mk.injEq] at h
              obtain ⟨-, -, h3⟩ := h
              subst h3
              have hc' : Pos4 c' := postBuild_pos4 c bres durs1 outs1 tr1 c' hc hpost
              rcases List.mem_append.mp hs with hmem | hmem
              · rcases postBuild_trace c bres durs1 outs1 tr1 c' hpost with
                  h0 | ⟨d, o, t, b, hbe, htr⟩
                · subst h0; simp at hmem
                · subst htr
                  subst hbe
                  exact buildPhase_pos4 nodeFn hfn ns c d o tr1 b hc hbres s hmem
              · exact probePhase_pos4 nodeFn hfn ns c' durs2 outs2 tr2 hc' hprobe s hmem
    · split at h
      · exact absurd h (by simp)
      · rename_i ds os ts hv
        split at h
        · exact absurd h (by simp)
        · rename_i sub' hmax
          simp only [Except.ok.injEq, Prod.mk.injEq] at h
          obtain ⟨-, -, h3⟩ := h
          subst h3
          exact loopGo_pos4 nodeFn hfn ns op c ds os ts hc hv s hs

/-- C2 counterexample: the Apply child-dispatch path can drop the apply
multiplier below 1.  With a build child whose `actRows` is `"0"` the
derived task count is 0, and the probe child is analyzed with
`applyConcurrency = 0` — the claim that every state passed to a node has
all five multipliers ≥ 1 is false. -/
theorem C2_counterexample :
    (analyzeDurationNode applyZeroRows newConcurrency).map
        (fun r => r.2.2.map concurrency.applyConcurrency) = .ok [1, 1, 0] ∧
    ¬ ∀ s ∈ [(1 : Int), 1, 0], 1 ≤ s :=
  ⟨by rfl, by decide⟩

/-- C2 amended: throughout the pass, every state passed to a node has
join, coprocessor, table and shuffle multipliers ≥ 1; the apply
multiplier alone can be lowered below 1 (to the Apply build side's
derived task count — see the counterexample). -/
theorem C2_amended : ∀ (fuel : Nat) (n : PlanNode) (c : concurrency)
    (res : Int × OutTree × List concurrency), Pos4 c →
    analyzeDurationNodeF fuel n c = .ok res → ∀ s ∈ res.2.2, Pos4 s := by
  intro fuel
  induction fuel with
  | zero =>
    intro n c res hc h
    exact absurd h (by simp [analyzeDurationNodeF])
  | succ k ih =>
    intro n c res hc h s hs
    simp only [analyzeDurationNodeF] at h
    split at h
    · exact absurd h (by simp)
    · rename_i sub outs tr hv
      simp only [Except.ok.injEq] at h
      subst h
      rcases List.mem_cons.mp hs with rfl | hmem
      · exact hc
      · exact nodesGo_pos4 (analyzeDurationNodeF k) ih n.children (getOperatorType n)
          (getConcurrency n (getOperatorType n) c) sub outs tr
          (getConcurrency_pos4 n (getOperatorType n) c hc) hv s hmem

/-- C2 witness: the amended theorem on the concrete `applyZeroRows`
tree — the first state passed (the root's) and the last state passed
(the probe's, whose apply multiplier is 0) both keep the four other
multipliers at 1. -/
theorem C2_witness :
    Pos4 newConcurrency ∧ Pos4 (⟨1, 1, 1, 0, 1⟩ : concurrency) :=
  ⟨C2_amended 3 applyZeroRows newConcurrency
      (1000000,
        ⟨[.formatted 1000000], [⟨[.formatted 1000000], []⟩, ⟨[.formatted 0], []⟩]⟩,
        [newConcurrency, newConcurrency, ⟨1, 1, 1, 0, 1⟩])
      ⟨le_refl 1, le_refl 1, le_refl 1, le_refl 1⟩ (by rfl)
      newConcurrency (List.Mem.head _),
    C2_amended 3 applyZeroRows newConcurrency
      (1000000,
        ⟨[.formatted 1000000], [⟨[.formatted 1000000], []⟩, ⟨[.formatted 0], []⟩]⟩,
        [newConcurrency, newConcurrency, ⟨1, 1, 1, 0, 1⟩])
      ⟨le_refl 1, le_refl 1, le_refl 1, le_refl 1⟩ (by rfl)
      ⟨1, 1, 1, 0, 1⟩ (List.Mem.tail _ (List.Mem.tail _ (List.Mem.head _)))⟩
